import Mathlib

/-!
# employee-service: a shallow embedding of the CRUD core

The development follows the three layers of the service:

* `daos/employee-dao.go`            : `EmployeeDao.*`
* `services/employee-service.go`    : `EmployeeService.*`
* `controllers/employee-controller.go` : `EmployeeController.*`

Go's `int`, `int64` and `uint` are the 64-bit types of the platforms the
service is built for.  Machine integers are `Int`/`Nat` with explicit wrapping.
The relational table is a list of rows in rowid order; the handle also carries
the connection state and the log of the statements sent through it, so that
"no statement was issued" is a statement about the handle.
-/

set_option autoImplicit false

namespace EmployeeCrud

/-! ## Go scalars -/

/-- Instants of `time.Time`; `0` is the zero time. -/
abbrev Time := Nat

/-- A `float64`, kept as its IEEE-754 bit pattern.  The service only stores and
copies salaries, it never computes with them. -/
structure Float64 where
  bits : Nat
deriving DecidableEq, Repr

/-- Reduction of an integer to the signed 64-bit range (two's complement). -/
def wrap64 (x : Int) : Int := (x + 2 ^ 63) % 2 ^ 64 - 2 ^ 63

/-- Go conversion `int64(u)` of a `uint` value. -/
def int64OfUint (u : Nat) : Int := wrap64 (u : Int)

/-! ## models/employee-model.go -/

/-- The struct `models.Employee`: the embedded `gorm.Model` (ID, CreatedAt, UpdatedAt,
DeletedAt) followed by Name, Position and Salary. -/
structure Employee where
  ID : Nat
  CreatedAt : Time
  UpdatedAt : Time
  DeletedAt : Option Time
  Name : String
  Position : String
  Salary : Float64
deriving DecidableEq, Repr

/-! ## errors -/

/-- The error values that flow through the service. -/
inductive GoError where
  /-- Sentinel `sqls.ErrNotExists`, the not-found signal. -/
  | ErrNotExists
  /-- Sentinel `gorm.ErrRecordNotFound`. -/
  | ErrRecordNotFound
  /-- Value of `errors.New(msg)`. -/
  | New (msg : String)
  /-- Value of type `*strconv.NumError`: function, input and cause. -/
  | NumError (fn : String) (num : String) (cause : String)
  /-- Error returned by `context.ShouldBindJSON`. -/
  | Bind (msg : String)
  /-- Any other error reported by the database driver. -/
  | Storage (msg : String)
deriving DecidableEq, Repr

deriving instance DecidableEq for Except

/-- Go's `errors.Is(err, target)` for these values, none of which wraps another. -/
def errorsIs (err target : GoError) : Bool := decide (err = target)

/-! ## strconv -/

/-- Value of a decimal digit. -/
def digitVal (c : Char) : Option Nat :=
  if '0' ≤ c ∧ c ≤ '9' then some (c.toNat - '0'.toNat) else none

/-- Outcome of the digit loop of `strconv.ParseUint`. -/
inductive Scan where
  /-- Every character was a digit and the value fits `uint64`. -/
  | value (n : Nat)
  /-- A character that is not a digit was met first. -/
  | badSyntax
  /-- The value left the range of `uint64` first. -/
  | outOfRange
deriving DecidableEq, Repr

/-- The digit loop of `strconv.ParseUint(s, 10, 64)`, left to right from the value read
so far: a character that is not a decimal digit ends it with a syntax error, a value
of 2^64 or more ends it with a range error, whichever comes first. -/
def scanDigits : List Char → Nat → Scan
  | [], n => .value n
  | c :: cs, n =>
    match digitVal c with
    | none => .badSyntax
    | some d => if 2 ^ 64 ≤ n * 10 + d then .outOfRange else scanDigits cs (n * 10 + d)

/-- Go's `strconv.ParseInt(s, 10, 64)`; `fn` is the function name recorded in the
error.  `strconv.Atoi(s)` is the same parser with `fn = "Atoi"` (an `int` has 64 bits).
An optional sign is followed by at least one digit; the magnitude is read by the
digit loop and must fit the signed range. -/
def parseInt (fn : String) (s : String) : Except GoError Int :=
  let syntaxErr : Except GoError Int := .error (.NumError fn s "invalid syntax")
  let rangeErr : Except GoError Int := .error (.NumError fn s "value out of range")
  match s.toList with
  | [] => syntaxErr
  | c :: cs =>
    let neg : Bool := c = '-'
    let ds : List Char := if c = '+' ∨ c = '-' then cs else c :: cs
    match (if ds.isEmpty then Scan.badSyntax else scanDigits ds 0) with
    | .badSyntax => syntaxErr
    | .outOfRange => rangeErr
    | .value n =>
      if neg then (if n ≤ 2 ^ 63 then .ok (-(n : Int)) else rangeErr)
      else (if n < 2 ^ 63 then .ok (n : Int) else rangeErr)

/-- Call `strconv.ParseInt(s, 10, 64)`. -/
def ParseInt (s : String) : Except GoError Int := parseInt "ParseInt" s

/-- Call `strconv.Atoi(s)`. -/
def Atoi (s : String) : Except GoError Int := parseInt "Atoi" s

/-! ## the database handle -/

/-- Kinds of SQL statement sent over the connection. -/
inductive Stmt where
  | select
  | insert
  | update
deriving DecidableEq, Repr

/-- Modelled from the spec: the `*gorm.DB` handle over the SQLite table `employees`
(the client package `daos/clients/sqls` and the ORM are not among the sources).
`rows` is the table in storage (rowid) order, soft-deleted rows included; `seq` is
the largest identifier the table has ever held; `fault` is a connection failure,
under which every statement fails with that message; `log` lists the statements
sent so far. -/
structure DB where
  rows : List Employee
  seq : Nat
  fault : Option String
  log : List Stmt
deriving DecidableEq, Repr

/-- Records that a statement was sent. -/
def DB.exec (db : DB) (s : Stmt) : DB := { db with log := db.log ++ [s] }

/-- Rows that are not soft-deleted (the predicate `deleted_at IS NULL`). -/
def visible (rows : List Employee) : List Employee :=
  rows.filter (fun r => r.DeletedAt.isNone)

/-- Predicate `id = ? AND deleted_at IS NULL` for an `int64` argument. -/
def matchesLive (id : Int) (r : Employee) : Bool :=
  decide ((r.ID : Int) = id) && r.DeletedAt.isNone

/-- The identifiers a table can hold through this service: positive and within the
signed 64-bit range of the SQLite rowid. -/
def validIds (rows : List Employee) : Bool :=
  rows.all (fun r => decide (0 < r.ID) && decide (r.ID < 2 ^ 63))

/-- Largest identifier among the rows, `0` for an empty table. -/
def maxID : List Employee → Nat
  | [] => 0
  | r :: rs => max r.ID (maxID rs)

/-- Places a row at its rowid position. -/
def insertRow (r : Employee) : List Employee → List Employee
  | [] => [r]
  | x :: xs => if r.ID < x.ID then r :: x :: xs else x :: insertRow r xs

/-- Modelled from the spec: `db.Where("id = ?", id).First(&m)`, the first row with
that id that is not soft-deleted, `gorm.ErrRecordNotFound` when there is none. -/
def gormFirst (db : DB) (id : Int) : Except GoError Employee × DB :=
  let db1 := db.exec .select
  match db.fault with
  | some msg => (.error (.Storage msg), db1)
  | none =>
    match db.rows.find? (matchesLive id) with
    | none => (.error .ErrRecordNotFound, db1)
    | some r => (.ok r, db1)

/-- Number of rows skipped for `Offset(n)`: the clause is only emitted for `n > 0`. -/
def offsetRows (offset : Int) : Nat := if 0 < offset then offset.toNat else 0

/-- Rows kept for `Limit(n)`: `LIMIT n` for `n ≥ 0`, no clause for a negative `n`. -/
def limitRows (limit : Int) (rows : List Employee) : List Employee :=
  if 0 ≤ limit then rows.take limit.toNat else rows

/-- Modelled from the spec: `db.Offset(offset).Limit(limit).Find(&m)`, the rows that
are not soft-deleted, in storage order, after skipping `offset` rows, at most
`limit` of them. -/
def gormFind (db : DB) (offset limit : Int) : Except GoError (List Employee) × DB :=
  let db1 := db.exec .select
  match db.fault with
  | some msg => (.error (.Storage msg), db1)
  | none => (.ok (limitRows limit ((visible db.rows).drop (offsetRows offset))), db1)

/-- Timestamps filled in by an insert: a zero CreatedAt or UpdatedAt becomes `now`. -/
def stampCreate (now : Time) (m : Employee) : Employee :=
  { m with CreatedAt := if m.CreatedAt = 0 then now else m.CreatedAt,
           UpdatedAt := if m.UpdatedAt = 0 then now else m.UpdatedAt }

/-- Modelled from the spec: `db.Create(&m)`, inserts a new row and assigns identifier
and timestamps.  A zero ID is replaced by the next identifier of the sequence; a
non-zero ID is inserted as given and must be new to the table.  Every other column,
the deletion timestamp included, is stored as the value holds it. -/
def gormCreate (db : DB) (now : Time) (m : Employee) : Except GoError Employee × DB :=
  let db1 := db.exec .insert
  match db.fault with
  | some msg => (.error (.Storage msg), db1)
  | none =>
    let m1 := stampCreate now m
    if m.ID = 0 then
      let id := max db.seq (maxID db.rows) + 1
      if 2 ^ 63 ≤ id then (.error (.Storage "database or disk is full"), db1)
      else
        let r := { m1 with ID := id }
        (.ok r, { db1 with rows := insertRow r db.rows, seq := id })
    else if 2 ^ 63 ≤ m.ID then
      (.error (.Storage "uint64 values with high bit set are not supported"), db1)
    else if db.rows.any (fun r => decide (r.ID = m.ID)) then
      (.error (.Storage "UNIQUE constraint failed: employees.id"), db1)
    else (.ok m1, { db1 with rows := insertRow m1 db.rows, seq := max db.seq m.ID })

/-- Row written by the upsert that `Save` falls back to: every column but the
creation timestamp is taken from the value. -/
def upsertRow (m : Employee) (r : Employee) : Employee :=
  if r.ID = m.ID then { m with CreatedAt := r.CreatedAt } else r

/-- Row left by the `UPDATE` of `Save`: a row with the value's id that is not
soft-deleted takes every column of the value. -/
def saveRow (m : Employee) (r : Employee) : Employee :=
  if matchesLive (m.ID : Int) r then m else r

/-- Modelled from the spec: `db.Save(&m)`.  With a zero primary key it is `Create`.
Otherwise it writes every column of the rows with that id that are not
soft-deleted and sets UpdatedAt to `now`; when no row was written it inserts the
value, updating on conflict. -/
def gormSave (db : DB) (now : Time) (m : Employee) : Except GoError Employee × DB :=
  if m.ID = 0 then gormCreate db now m
  else
    let db1 := db.exec .update
    match db.fault with
    | some msg => (.error (.Storage msg), db1)
    | none =>
      let m1 := { m with UpdatedAt := now }
      if 2 ^ 63 ≤ m.ID then
        (.error (.Storage "uint64 values with high bit set are not supported"), db1)
      else if db.rows.any (matchesLive (m.ID : Int)) then
        (.ok m1, { db1 with rows := db.rows.map (saveRow m1) })
      else
        let db2 := db1.exec .insert
        if db.rows.any (fun r => decide (r.ID = m.ID)) then
          (.ok m1, { db2 with rows := db.rows.map (upsertRow m1) })
        else
          (.ok (stampCreate now m1),
           { db2 with rows := insertRow (stampCreate now m1) db.rows,
                      seq := max db.seq m.ID })

/-- Row left by the soft delete: a row with that id that is not yet soft-deleted
gets the deletion timestamp `now`. -/
def softDeleteRow (now : Time) (id : Int) (r : Employee) : Employee :=
  if matchesLive id r then { r with DeletedAt := some now } else r

/-- Modelled from the spec: `db.Where("id = ?", id).Delete(&m)` on a model with a
deletion timestamp: sets that timestamp on the rows with that id that are not yet
soft-deleted; matching no row is not an error. -/
def gormDelete (db : DB) (now : Time) (id : Int) : Option GoError × DB :=
  let db1 := db.exec .update
  match db.fault with
  | some msg => (some (.Storage msg), db1)
  | none =>
    (none, { db1 with rows := db.rows.map (softDeleteRow now id) })

/-- Rows of one multi-row `INSERT`, taken in order: each value is inserted as a single
`Create` would insert it, and the first failure fails the whole statement. -/
def createAll (db : DB) (now : Time) : List Employee → Except GoError (List Employee × DB)
  | [] => .ok ([], db)
  | m :: ms =>
    match gormCreate db now m with
    | (.error err, _) => .error err
    | (.ok e, db1) =>
      match createAll db1 now ms with
      | .error err => .error err
      | .ok (es, db2) => .ok (e :: es, db2)

/-- Modelled from the spec: `db.Create(&employees)` on a slice, one batch insert that
is all-or-nothing: every value gets its identifier and timestamps as in `Create`, or
no row is written.  An empty slice is refused with `gorm.ErrEmptySlice` before any
statement is sent. -/
def gormCreateBatch (db : DB) (now : Time) (ms : List Employee) : Option GoError × DB :=
  if ms.isEmpty then (some (.New "empty slice found"), db)
  else
    let db1 := db.exec .insert
    match db.fault with
    | some msg => (some (.Storage msg), db1)
    | none =>
      match createAll db now ms with
      | .error err => (some err, db1)
      | .ok (_, db2) => (none, { db1 with rows := db2.rows, seq := db2.seq })

/-! ## daos/employee-dao.go -/

/-- Method `EmployeeDao.CreateEmployee`. -/
def EmployeeDao.CreateEmployee (db : DB) (now : Time) (m : Employee) :
    Except GoError Employee × DB :=
  match gormCreate db now m with
  | (.error err, db1) => (.error err, db1)
  | (.ok m1, db1) => (.ok m1, db1)

/-- Method `EmployeeDao.GetEmployee`. -/
def EmployeeDao.GetEmployee (db : DB) (id : Int) : Except GoError Employee × DB :=
  match gormFirst db id with
  | (.error err, db1) =>
    if errorsIs err .ErrRecordNotFound then (.error .ErrNotExists, db1)
    else (.error err, db1)
  | (.ok m, db1) => (.ok m, db1)

/-- Method `EmployeeDao.GetEmployees`; the offset `(page - 1) * limit` is computed in
Go's `int`. -/
def EmployeeDao.GetEmployees (db : DB) (page limit : Int) :
    Except GoError (List Employee) × DB :=
  match gormFind db (wrap64 (wrap64 (page - 1) * limit)) limit with
  | (.error err, db1) => (.error err, db1)
  | (.ok m, db1) => (.ok m, db1)

/-- Method `EmployeeDao.UpdateEmployee`. -/
def EmployeeDao.UpdateEmployee (db : DB) (now : Time) (id : Int) (m : Employee) :
    Except GoError Employee × DB :=
  if id = 0 then (.error (.New "invalid employee ID"), db)
  else if id ≠ int64OfUint m.ID then (.error (.New "id and payload don't match"), db)
  else
    match gormFirst db id with
    | (.error err, db1) =>
      if errorsIs err .ErrRecordNotFound then (.error .ErrNotExists, db1)
      else (.error err, db1)
    | (.ok _, db1) =>
      match gormSave db1 now m with
      | (.error err, db2) => (.error err, db2)
      | (.ok m1, db2) => (.ok m1, db2)

/-- Method `EmployeeDao.DeleteEmployee`. -/
def EmployeeDao.DeleteEmployee (db : DB) (now : Time) (id : Int) : Option GoError × DB :=
  match gormDelete db now id with
  | (some err, db1) => (some err, db1)
  | (none, db1) => (none, db1)

/-- Method `EmployeeDao.CreateEmployees`. -/
def EmployeeDao.CreateEmployees (db : DB) (now : Time) (employees : List Employee) :
    Option GoError × DB :=
  match gormCreateBatch db now employees with
  | (some err, db1) => (some err, db1)
  | (none, db1) => (none, db1)

/-! ## services/employee-service.go -/

/-- Method `EmployeeService.CreateEmployee`. -/
def EmployeeService.CreateEmployee (db : DB) (now : Time) (employee : Employee) :
    Except GoError Employee × DB :=
  EmployeeDao.CreateEmployee db now employee

/-- Method `EmployeeService.GetEmployee`. -/
def EmployeeService.GetEmployee (db : DB) (id : Int) : Except GoError Employee × DB :=
  EmployeeDao.GetEmployee db id

/-- Method `EmployeeService.GetEmployees`. -/
def EmployeeService.GetEmployees (db : DB) (page limit : Int) :
    Except GoError (List Employee) × DB :=
  EmployeeDao.GetEmployees db page limit

/-- Method `EmployeeService.UpdateEmployee`. -/
def EmployeeService.UpdateEmployee (db : DB) (now : Time) (id : Int) (employee : Employee) :
    Except GoError Employee × DB :=
  EmployeeDao.UpdateEmployee db now id employee

/-- Method `EmployeeService.DeleteEmployee`. -/
def EmployeeService.DeleteEmployee (db : DB) (now : Time) (id : Int) : Option GoError × DB :=
  EmployeeDao.DeleteEmployee db now id

/-- Method `EmployeeService.CreateEmployees`. -/
def EmployeeService.CreateEmployees (db : DB) (now : Time) (employees : List Employee) :
    Option GoError × DB :=
  EmployeeDao.CreateEmployees db now employees

/-! ## controllers/employee-controller.go -/

/-- What a handler hands to `context.JSON`. -/
inductive Body where
  /-- Object `gin.H{"error": err.Error()}`. -/
  | error (err : GoError)
  /-- Object `gin.H{}`. -/
  | empty
  /-- Object `gin.H{"message": msg}`. -/
  | message (msg : String)
  /-- One employee. -/
  | employee (e : Employee)
  /-- An array of employees. -/
  | employees (es : List Employee)
deriving DecidableEq, Repr

/-- The HTTP response: status code and, when a body was written, its content. -/
structure Response where
  status : Nat
  body : Option Body
deriving DecidableEq, Repr

/-- Helper `bodyAllowedForStatus` of gin: informational, 204 and 304 responses carry
no body. -/
def bodyAllowedForStatus (status : Nat) : Bool :=
  if 100 ≤ status ∧ status ≤ 199 then false
  else if status = 204 then false
  else if status = 304 then false
  else true

/-- Call `context.JSON(code, obj)`. -/
def JSON (code : Nat) (obj : Body) : Response :=
  if bodyAllowedForStatus code then { status := code, body := some obj }
  else { status := code, body := none }

/-- The parts of a request the handlers read: the path parameter `id`, the URL query
and the outcome of `context.ShouldBindJSON(&input)` on the body. -/
structure Request where
  id : String
  query : List (String × String)
  body : Except GoError Employee

/-- Call `query.Get(key)`: the first value of the key, the empty string when absent. -/
def queryGet (query : List (String × String)) (key : String) : String :=
  match query.find? (fun kv => kv.1 == key) with
  | some kv => kv.2
  | none => ""

/-- Handler `EmployeeController.CreateEmployee`. -/
def EmployeeController.CreateEmployee (db : DB) (now : Time) (req : Request) :
    Response × DB :=
  match req.body with
  | .error err => (JSON 422 (.error err), db)
  | .ok input =>
    match EmployeeService.CreateEmployee db now input with
    | (.error err, db1) => (JSON 500 (.error err), db1)
    | (.ok employeeCreated, db1) => (JSON 201 (.employee employeeCreated), db1)

/-- Handler `EmployeeController.FetchEmployee`.  The span attribute set when tracing
is configured does not touch the response. -/
def EmployeeController.FetchEmployee (db : DB) (req : Request) : Response × DB :=
  match ParseInt req.id with
  | .error err => (JSON 400 (.error err), db)
  | .ok id =>
    match EmployeeService.GetEmployee db id with
    | (.error err, db1) =>
      if errorsIs err .ErrNotExists then (JSON 404 (.error err), db1)
      else (JSON 500 (.error err), db1)
    | (.ok employee, db1) => (JSON 200 (.employee employee), db1)

/-- Handler `EmployeeController.FetchEmployees`. -/
def EmployeeController.FetchEmployees (db : DB) (req : Request) : Response × DB :=
  let page : Int :=
    match Atoi (queryGet req.query "page") with
    | .error _ => 1
    | .ok v => v
  let limit : Int :=
    match Atoi (queryGet req.query "page_size") with
    | .error _ => 10
    | .ok v => v
  match EmployeeService.GetEmployees db page limit with
  | (.error err, db1) => (JSON 500 (.error err), db1)
  | (.ok employees, db1) => (JSON 200 (.employees employees), db1)

/-- Handler `EmployeeController.UpdateEmployee`. -/
def EmployeeController.UpdateEmployee (db : DB) (now : Time) (req : Request) :
    Response × DB :=
  match req.body with
  | .error err => (JSON 422 (.error err), db)
  | .ok input =>
    match ParseInt req.id with
    | .error err => (JSON 400 (.error err), db)
    | .ok id =>
      match EmployeeService.UpdateEmployee db now id input with
      | (.error err, db1) =>
        if errorsIs err .ErrNotExists then (JSON 404 (.error err), db1)
        else (JSON 500 (.error err), db1)
      | (.ok _, db1) => (JSON 204 .empty, db1)

/-- Handler `EmployeeController.DeleteEmployee`. -/
def EmployeeController.DeleteEmployee (db : DB) (now : Time) (req : Request) :
    Response × DB :=
  match ParseInt req.id with
  | .error err => (JSON 400 (.error err), db)
  | .ok id =>
    match EmployeeService.DeleteEmployee db now id with
    | (some err, db1) => (JSON 500 (.error err), db1)
    | (none, db1) => (JSON 204 .empty, db1)

/-- A composite literal `{Name: ..., Position: ..., Salary: ...}` of `models.Employee`:
the fields of the embedded `gorm.Model` are zero.  The salary is given by its bits. -/
def sample (name position : String) (salaryBits : Nat) : Employee :=
  { ID := 0, CreatedAt := 0, UpdatedAt := 0, DeletedAt := none,
    Name := name, Position := position, Salary := { bits := salaryBits } }

/-- The slice literal `employees` of `PushEmployee`, in source order. -/
def pushCatalog : List Employee :=
  [
    sample "Rahul Gupta" "Software Developer" 0x40f28e0400000000,
    sample "Deepika Patel" "Marketing Specialist" 0x40eccf1000000000,
    sample "Amit Kumar" "Accountant" 0x40e9e10000000000,
    sample "Ananya Singh" "Customer Service Representative" 0x40e3c69800000000,
    sample "Prakash Sharma" "Human Resources Manager" 0x40f4050000000000,
    sample "Neha Reddy" "Software Developer" 0x40f2110400000000,
    sample "Sanjay Mishra" "Marketing Specialist" 0x40ed4c1000000000,
    sample "Pooja Shah" "Accountant" 0x40eb580000000000,
    sample "Rajesh Patel" "Customer Service Representative" 0x40e4ff1800000000,
    sample "Nisha Desai" "Human Resources Manager" 0x40f4438000000000,
    sample "Ajay Verma" "Software Developer" 0x40f2cc8400000000,
    sample "Shreya Singh" "Marketing Specialist" 0x40edc91000000000,
    sample "Manoj Kumar" "Accountant" 0x40ea5e0000000000,
    sample "Sneha Sharma" "Customer Service Representative" 0x40e4051800000000,
    sample "Vivek Joshi" "Human Resources Manager" 0x40f4820000000000,
    sample "Meera Patel" "Software Developer" 0x40f30b0400000000,
    sample "Raj Gupta" "Marketing Specialist" 0x40ee461000000000,
    sample "Aarti Sharma" "Accountant" 0x40eadb0000000000,
    sample "Anand Singh" "Customer Service Representative" 0x40e4821800000000,
    sample "Divya Desai" "Human Resources Manager" 0x40f4c08000000000,
    sample "Vikas Reddy" "Software Developer" 0x40f3498400000000,
    sample "Kavita Mishra" "Marketing Specialist" 0x40eec31000000000,
    sample "Amita Shah" "Accountant" 0x40eb580000000000,
    sample "Vinod Patel" "Customer Service Representative" 0x40e4ff1800000000,
    sample "Neeraj Desai" "Human Resources Manager" 0x40f4ff0000000000,
    sample "Priya Gupta" "Software Developer" 0x40f3880400000000,
    sample "Rahul Singh" "Marketing Specialist" 0x40ef401000000000,
    sample "Anjali Kumar" "Accountant" 0x40ebd50000000000,
    sample "Arjun Sharma" "Customer Service Representative" 0x40e57c1800000000,
    sample "Kiran Desai" "Human Resources Manager" 0x40f53d8000000000,
    sample "Sarita Patel" "Software Developer" 0x40f3c68400000000,
    sample "Pradeep Mishra" "Marketing Specialist" 0x40efbd1000000000,
    sample "Nandini Shah" "Accountant" 0x40ec520000000000,
    sample "Rajeev Singh" "Customer Service Representative" 0x40e5f91800000000,
    sample "Gaurav Desai" "Human Resources Manager" 0x40f57c0000000000,
    sample "Sunita Gupta" "Software Developer" 0x40f4050400000000,
    sample "Pawan Singh" "Marketing Specialist" 0x40f01d0800000000,
    sample "Anita Kumar" "Accountant" 0x40eccf0000000000,
    sample "Suresh Sharma" "Customer Service Representative" 0x40e6761800000000,
    sample "Deepak Desai" "Human Resources Manager" 0x40f5ba8000000000 ]

/-- Handler `EmployeeController.PushEmployee`. -/
def EmployeeController.PushEmployee (db : DB) (now : Time) : Response × DB :=
  match EmployeeService.CreateEmployees db now pushCatalog with
  | (some err, db1) => (JSON 500 (.error err), db1)
  | (none, db1) => (JSON 201 (.message "Random employees created"), db1)

/-- The rows a batch insert adds for values without identifier, when the largest
identifier in use is `base`: the values in order, stamped, numbered from `base + 1`. -/
def seedRows (now : Time) : Nat → List Employee → List Employee
  | _, [] => []
  | base, m :: ms =>
    { stampCreate now m with ID := base + 1 } :: seedRows now (base + 1) ms

/-- Number of rows that carry the name, position and salary of `c`. -/
def countLike (c : Employee) (rows : List Employee) : Nat :=
  rows.countP (fun r => decide (r.Name = c.Name) && decide (r.Position = c.Position)
    && decide (r.Salary = c.Salary))

/-! ## sample data -/

/-- A handle on an empty, reachable table. -/
def emptyDB : DB := { rows := [], seq := 0, fault := none, log := [] }

/-- The body of the controller test: id 209, John Doe, Software Developer, 268999.90. -/
def johnDoe : Employee :=
  { ID := 209, CreatedAt := 0, UpdatedAt := 0, DeletedAt := none,
    Name := "John Doe", Position := "Software Developer",
    Salary := { bits := 0x41106b1f9999999a } }

/-- A payload whose identifier is the largest `uint`. -/
def maxIdPayload : Employee := { johnDoe with ID := 18446744073709551615 }

/-- A request with the given path id and decoded body, and no query. -/
def mkRequest (id : String) (body : Except GoError Employee) : Request :=
  { id := id, query := [], body := body }

/-! ## machine integers -/

theorem int64OfUint_of_lt (u : Nat) (h : u < 2 ^ 63) : int64OfUint u = (u : Int) := by
  unfold int64OfUint wrap64
  have h1 : (0 : Int) ≤ (u : Int) := Int.ofNat_nonneg u
  have h2 : ((u : Int)) < 2 ^ 63 := by exact_mod_cast h
  rw [Int.emod_eq_of_lt (by omega) (by omega)]
  omega

theorem wrap64_of_range (x : Int) (h0 : -2 ^ 63 ≤ x) (h1 : x < 2 ^ 63) : wrap64 x = x := by
  unfold wrap64
  rw [Int.emod_eq_of_lt (by omega) (by omega)]
  omega

/-! ## Update: the guards of the data access layer -/

/-- On the guarded inputs (id zero, or id different from `int64(m.ID)`) the update
returns one of its two `errors.New` values and hands the handle back untouched:
no statement is logged. -/
theorem UpdateEmployee_guard (db : DB) (now : Time) (id : Int) (m : Employee)
    (h : id = 0 ∨ id ≠ int64OfUint m.ID) :
    (EmployeeDao.UpdateEmployee db now id m = (.error (.New "invalid employee ID"), db) ∨
     EmployeeDao.UpdateEmployee db now id m
       = (.error (.New "id and payload don't match"), db)) := by
  unfold EmployeeDao.UpdateEmployee
  by_cases h0 : id = 0
  · left; simp [h0]
  · right
    have h1 : id ≠ int64OfUint m.ID := h.resolve_left h0
    simp [h0, h1]

/-- C1 (counterexample): path id -1 with payload identifier 2^64 - 1.  The two differ
as integers, yet `int64(m.ID)` is -1: the mismatch guard lets the call through, a
`SELECT` is sent, and the result is the not-found signal (status 404 at the handler). -/
theorem C1_wrapped_identifier_counterexample :
    ((-1 : Int) ≠ ((maxIdPayload.ID : Nat) : Int) ∧ maxIdPayload.ID < 2 ^ 64) ∧
    EmployeeDao.UpdateEmployee emptyDB 7 (-1) maxIdPayload
      = (.error .ErrNotExists, emptyDB.exec .select) ∧
    (emptyDB.exec .select).log = [Stmt.select] ∧
    (EmployeeDao.UpdateEmployee emptyDB 7 (-1) maxIdPayload).2 ≠ emptyDB ∧
    (EmployeeController.UpdateEmployee emptyDB 7
      (mkRequest "-1" (.ok maxIdPayload))).1.status = 404 := by
  decide

theorem int64OfUint_of_ge (u : Nat) (h0 : 2 ^ 63 ≤ u) (h1 : u < 2 ^ 64) :
    int64OfUint u = (u : Int) - 2 ^ 64 := by
  unfold int64OfUint wrap64
  have h2 : (2 : Int) ^ 63 ≤ (u : Int) := by exact_mod_cast h0
  have h3 : (u : Int) < 2 ^ 64 := by exact_mod_cast h1
  have h4 : ((u : Int) + 2 ^ 63) % 2 ^ 64 = (u : Int) + 2 ^ 63 - 2 ^ 64 := by
    rw [Int.emod_eq_sub_self_emod, Int.emod_eq_of_lt (by omega) (by omega)]
  rw [h4]
  omega

/-- C1 (amended): for every path id and every payload whose identifier is an unsigned
64-bit integer, the update fails whenever id is zero, or id differs from the
payload's identifier and is not the two's-complement reading of an identifier of
2^63 or more (id = identifier - 2^64).  The error is one of the two `errors.New`
values of the guards, not the not-found signal, and the handle comes back as it
was, with no statement sent and no row touched. -/
theorem C1_update_guard (db : DB) (now : Time) (id : Int) (m : Employee)
    (hm : m.ID < 2 ^ 64)
    (h : id = 0 ∨
      (id ≠ (m.ID : Int) ∧ ¬ (2 ^ 63 ≤ m.ID ∧ id = (m.ID : Int) - 2 ^ 64))) :
    (EmployeeDao.UpdateEmployee db now id m).2 = db ∧
    (∃ err, (EmployeeDao.UpdateEmployee db now id m).1 = .error err ∧
      err ≠ .ErrNotExists ∧
      (err = .New "invalid employee ID" ∨ err = .New "id and payload don't match")) := by
  have hconv : id = 0 ∨ id ≠ int64OfUint m.ID := by
    rcases h with h | ⟨hne, hw⟩
    · exact Or.inl h
    · right
      by_cases hlt : m.ID < 2 ^ 63
      · rw [int64OfUint_of_lt m.ID hlt]; exact hne
      · have hge : 2 ^ 63 ≤ m.ID := Nat.le_of_not_lt hlt
        rw [int64OfUint_of_ge m.ID hge hm]
        exact fun heq => hw ⟨hge, heq⟩
  have hg := UpdateEmployee_guard db now id m hconv
  rcases hg with hg | hg <;> rw [hg]
  · exact ⟨rfl, _, rfl, by simp, Or.inl rfl⟩
  · exact ⟨rfl, _, rfl, by simp, Or.inr rfl⟩

/-- C1 at the table of employee 209: path id 7 against payload identifier 209, path
id 5 against payload identifier 2^63 + 7, and path id 0 against payload identifier
0, are all refused without a statement. -/
theorem C1_update_guard_witness :
    (EmployeeDao.UpdateEmployee { emptyDB with rows := [johnDoe] } 9 7 johnDoe).2
      = { emptyDB with rows := [johnDoe] } ∧
    (EmployeeDao.UpdateEmployee { emptyDB with rows := [johnDoe] } 9 5
      { johnDoe with ID := 9223372036854775815 }).2
      = { emptyDB with rows := [johnDoe] } ∧
    (EmployeeDao.UpdateEmployee { emptyDB with rows := [johnDoe] } 9 0
      { johnDoe with ID := 0 }).1 = .error (.New "invalid employee ID") :=
  ⟨(C1_update_guard { emptyDB with rows := [johnDoe] } 9 7 johnDoe (by decide)
      (Or.inr (by decide))).1,
   (C1_update_guard { emptyDB with rows := [johnDoe] } 9 5
      { johnDoe with ID := 9223372036854775815 } (by decide) (Or.inr (by decide))).1,
   by decide⟩

/-- The pairs on which the guard is silent although id and identifier differ: for a
payload identifier of 2^63 or more and id = identifier - 2^64, the update goes on
to the lookup, so a `SELECT` is sent. -/
theorem UpdateEmployee_wrapped_passes_guard (db : DB) (now : Time) (id : Int)
    (m : Employee) (h0 : 2 ^ 63 ≤ m.ID) (h1 : m.ID < 2 ^ 64)
    (hid : id = (m.ID : Int) - 2 ^ 64) :
    id ≠ (m.ID : Int) ∧
    EmployeeDao.UpdateEmployee db now id m =
      (match gormFirst db id with
       | (.error err, db1) =>
         if errorsIs err .ErrRecordNotFound then (.error .ErrNotExists, db1)
         else (.error err, db1)
       | (.ok _, db1) =>
         match gormSave db1 now m with
         | (.error err, db2) => (.error err, db2)
         | (.ok m1, db2) => (.ok m1, db2)) ∧
    (gormFirst db id).2 = db.exec .select := by
  have hne0 : id ≠ 0 := by
    have : (m.ID : Int) < 2 ^ 64 := by exact_mod_cast h1
    omega
  have hconv : id = int64OfUint m.ID := by rw [int64OfUint_of_ge m.ID h0 h1]; exact hid
  refine ⟨by omega, ?_, ?_⟩
  · unfold EmployeeDao.UpdateEmployee
    rw [if_neg hne0, if_neg (not_not.mpr hconv)]
  · unfold gormFirst
    cases db.fault with
    | some msg => rfl
    | none =>
      simp only
      cases db.rows.find? (matchesLive id) <;> rfl

/-! ## Update: the handler -/

/-- C2: the status of `PUT /employees/{id}` is decided in this order: 422 when the
body does not bind (whatever the path id is); else 400 when the path id does not
parse; else 404 when the service returns the not-found signal; else 500 for every
other service error, among them the zero-id and the id/payload mismatch errors of the
data access layer; else 204 with no body. -/
theorem C2_update_handler_status_order (db : DB) (now : Time) (req : Request) :
    (∀ err, req.body = .error err →
      EmployeeController.UpdateEmployee db now req
        = ({ status := 422, body := some (.error err) }, db)) ∧
    (∀ input, req.body = .ok input →
      (∀ err, ParseInt req.id = .error err →
        EmployeeController.UpdateEmployee db now req
          = ({ status := 400, body := some (.error err) }, db)) ∧
      (∀ id, ParseInt req.id = .ok id →
        (∀ db1, EmployeeService.UpdateEmployee db now id input = (.error .ErrNotExists, db1) →
          EmployeeController.UpdateEmployee db now req
            = ({ status := 404, body := some (.error .ErrNotExists) }, db1)) ∧
        (∀ err db1, EmployeeService.UpdateEmployee db now id input = (.error err, db1) →
          err ≠ .ErrNotExists →
          EmployeeController.UpdateEmployee db now req
            = ({ status := 500, body := some (.error err) }, db1)) ∧
        (id = 0 →
          EmployeeController.UpdateEmployee db now req
            = ({ status := 500, body := some (.error (.New "invalid employee ID")) }, db)) ∧
        (id ≠ 0 → id ≠ int64OfUint input.ID →
          EmployeeController.UpdateEmployee db now req
            = ({ status := 500,
                 body := some (.error (.New "id and payload don't match")) }, db)) ∧
        (∀ e db1, EmployeeService.UpdateEmployee db now id input = (.ok e, db1) →
          EmployeeController.UpdateEmployee db now req
            = ({ status := 204, body := none }, db1)))) := by
  refine ⟨?_, ?_⟩
  · intro err hb
    simp [EmployeeController.UpdateEmployee, hb, JSON, bodyAllowedForStatus]
  · intro input hb
    refine ⟨?_, ?_⟩
    · intro err hp
      simp [EmployeeController.UpdateEmployee, hb, hp, JSON, bodyAllowedForStatus]
    · intro id hp
      refine ⟨?_, ?_, ?_, ?_, ?_⟩
      · intro db1 hs
        simp [EmployeeController.UpdateEmployee, hb, hp, hs, JSON, bodyAllowedForStatus,
          errorsIs]
      · intro err db1 hs hne
        simp [EmployeeController.UpdateEmployee, hb, hp, hs, JSON, bodyAllowedForStatus,
          errorsIs, hne]
      · intro h0
        simp [EmployeeController.UpdateEmployee, hb, hp, JSON, bodyAllowedForStatus,
          errorsIs, EmployeeService.UpdateEmployee, EmployeeDao.UpdateEmployee, h0]
      · intro h0 h1
        simp [EmployeeController.UpdateEmployee, hb, hp, JSON, bodyAllowedForStatus,
          errorsIs, EmployeeService.UpdateEmployee, EmployeeDao.UpdateEmployee, h0, h1]
      · intro e db1 hs
        simp [EmployeeController.UpdateEmployee, hb, hp, hs, JSON, bodyAllowedForStatus]

/-- C2 at concrete requests: an unreadable body with an unparsable id gives 422; a
readable body with id "abc" gives 400; id "7" on an empty table gives 404; id "0"
and id "7" against payload id 209 give 500; id "209" after creating 209 gives 204;
a lost connection gives 500. -/
theorem C2_update_handler_status_order_witness :
    (EmployeeController.UpdateEmployee emptyDB 7
      (mkRequest "abc" (.error (.Bind "EOF")))).1 = { status := 422, body := some (.error (.Bind "EOF")) } ∧
    (EmployeeController.UpdateEmployee emptyDB 7
      (mkRequest "abc" (.ok johnDoe))).1.status = 400 ∧
    (EmployeeController.UpdateEmployee emptyDB 7
      (mkRequest "7" (.ok { johnDoe with ID := 7 }))).1.status = 404 ∧
    (EmployeeController.UpdateEmployee emptyDB 7
      (mkRequest "0" (.ok { johnDoe with ID := 0 }))).1.status = 500 ∧
    (EmployeeController.UpdateEmployee emptyDB 7
      (mkRequest "7" (.ok johnDoe))).1.status = 500 ∧
    (EmployeeController.UpdateEmployee (EmployeeDao.CreateEmployee emptyDB 5 johnDoe).2 7
      (mkRequest "209" (.ok johnDoe))).1 = { status := 204, body := none } ∧
    (EmployeeController.UpdateEmployee { emptyDB with fault := some "connection lost" } 7
      (mkRequest "209" (.ok johnDoe))).1.status = 500 :=
  ⟨((C2_update_handler_status_order emptyDB 7 (mkRequest "abc" (.error (.Bind "EOF")))).1
      (.Bind "EOF") rfl) ▸ rfl,
   by decide, by decide, by decide, by decide, by decide, by decide⟩

/-! ## Fetch by id -/

theorem find?_matchesLive_eq_none (rows : List Employee) (id : Int) :
    rows.find? (matchesLive id) = none ↔
      ∀ r ∈ rows, ¬ ((r.ID : Int) = id ∧ r.DeletedAt = none) := by
  simp [List.find?_eq_none, matchesLive, Option.isNone_iff_eq_none]

/-- The data access read: on a reachable table it returns the first row with that id
that is not soft-deleted, and the not-found signal when there is none; on a lost
connection it returns the driver's error.  One `SELECT` is logged in each case. -/
theorem GetEmployee_eq (db : DB) (id : Int) :
    EmployeeDao.GetEmployee db id =
      (match db.fault with
       | some msg => .error (.Storage msg)
       | none =>
         match db.rows.find? (matchesLive id) with
         | none => .error .ErrNotExists
         | some r => .ok r,
       db.exec .select) := by
  unfold EmployeeDao.GetEmployee gormFirst
  cases hf : db.fault with
  | some msg => simp [errorsIs]
  | none =>
    cases hr : db.rows.find? (matchesLive id) with
    | none => simp [errorsIs]
    | some r => simp

/-- C3: `GET /employees/{id}` answers 400 exactly when the path id does not parse as
a base-10 64-bit integer ("abc" does not).  For a parsed id it answers 404 exactly
when the table, being reachable, holds no row with that id that is not soft-deleted;
500 with the driver's error when the storage fails otherwise; and 200 with the
stored row in the remaining case. -/
theorem C3_fetch_handler_status (db : DB) (req : Request) :
    (((EmployeeController.FetchEmployee db req).1.status = 400) ↔
      ∃ err, ParseInt req.id = .error err) ∧
    (∃ err, ParseInt "abc" = .error err) ∧
    (∀ id, ParseInt req.id = .ok id →
      (db.fault = none →
        (((EmployeeController.FetchEmployee db req).1.status = 404) ↔
          ∀ r ∈ db.rows, ¬ ((r.ID : Int) = id ∧ r.DeletedAt = none))) ∧
      (db.fault = none →
        (∀ r ∈ db.rows, ¬ ((r.ID : Int) = id ∧ r.DeletedAt = none)) →
        (EmployeeDao.GetEmployee db id).1 = .error .ErrNotExists ∧
        (EmployeeController.FetchEmployee db req).1
          = { status := 404, body := some (.error .ErrNotExists) }) ∧
      (∀ msg, db.fault = some msg →
        (EmployeeController.FetchEmployee db req).1
          = { status := 500, body := some (.error (.Storage msg)) }) ∧
      (db.fault = none → ∀ r, db.rows.find? (matchesLive id) = some r →
        (EmployeeController.FetchEmployee db req).1
          = { status := 200, body := some (.employee r) })) := by
  have key : ∀ id, ParseInt req.id = .ok id →
      EmployeeController.FetchEmployee db req =
        (match EmployeeDao.GetEmployee db id with
         | (.error err, db1) =>
           if errorsIs err .ErrNotExists then (JSON 404 (.error err), db1)
           else (JSON 500 (.error err), db1)
         | (.ok employee, db1) => (JSON 200 (.employee employee), db1)) := by
    intro id hp
    simp only [EmployeeController.FetchEmployee, EmployeeService.GetEmployee, hp]
  refine ⟨?_, ⟨_, rfl⟩, ?_⟩
  · cases hp : ParseInt req.id with
    | error err =>
      simp [EmployeeController.FetchEmployee, hp, JSON, bodyAllowedForStatus]
    | ok id =>
      rw [key id hp, GetEmployee_eq]
      cases hf : db.fault with
      | some msg => simp [JSON, bodyAllowedForStatus, errorsIs]
      | none =>
        cases hr : db.rows.find? (matchesLive id) with
        | none => simp [JSON, bodyAllowedForStatus, errorsIs]
        | some r => simp [JSON, bodyAllowedForStatus]
  · intro id hp
    rw [key id hp, GetEmployee_eq]
    refine ⟨?_, ?_, ?_, ?_⟩
    · intro hf
      rw [← find?_matchesLive_eq_none]
      cases hr : db.rows.find? (matchesLive id) with
      | none => simp [hf, JSON, bodyAllowedForStatus, errorsIs]
      | some r => simp [hf, JSON, bodyAllowedForStatus]
    · intro hf hno
      rw [← find?_matchesLive_eq_none] at hno
      simp [hf, hno, JSON, bodyAllowedForStatus, errorsIs]
    · intro msg hf
      simp [hf, JSON, bodyAllowedForStatus, errorsIs]
    · intro hf r hr
      simp [hf, hr, JSON, bodyAllowedForStatus]

/-- C3 at concrete requests on the table that holds only employee 209: "abc" gives
400, "209" gives 200 with the stored row, the unused id "9223372036854775807" gives
404, and with the connection lost "209" gives 500. -/
theorem C3_fetch_handler_status_witness :
    (EmployeeController.FetchEmployee (EmployeeDao.CreateEmployee emptyDB 5 johnDoe).2
      (mkRequest "abc" (.error (.Bind "EOF")))).1.status = 400 ∧
    (EmployeeController.FetchEmployee (EmployeeDao.CreateEmployee emptyDB 5 johnDoe).2
      (mkRequest "209" (.error (.Bind "EOF")))).1
        = { status := 200, body := some (.employee (stampCreate 5 johnDoe)) } ∧
    (EmployeeController.FetchEmployee (EmployeeDao.CreateEmployee emptyDB 5 johnDoe).2
      (mkRequest "9223372036854775807" (.error (.Bind "EOF")))).1.status = 404 ∧
    (EmployeeController.FetchEmployee { emptyDB with fault := some "connection lost" }
      (mkRequest "209" (.error (.Bind "EOF")))).1.status = 500 :=
  ⟨(C3_fetch_handler_status (EmployeeDao.CreateEmployee emptyDB 5 johnDoe).2
      (mkRequest "abc" (.error (.Bind "EOF")))).1.mpr ⟨_, rfl⟩,
   by decide, by decide, by decide⟩

/-! ## List -/

/-- The data access list on a reachable table, for every page and limit: the rows
that are not soft-deleted, after skipping the offset computed in Go's `int`. -/
theorem GetEmployees_eq (db : DB) (page limit : Int) (hf : db.fault = none) :
    EmployeeDao.GetEmployees db page limit =
      (.ok (limitRows limit
        ((visible db.rows).drop (offsetRows (wrap64 (wrap64 (page - 1) * limit))))),
       db.exec .select) := by
  simp [EmployeeDao.GetEmployees, gormFind, hf]

theorem offset_no_overflow (page limit : Int) (hp : 0 < page) (hl : 0 < limit)
    (hprod : (page - 1) * limit < 2 ^ 63) :
    offsetRows (wrap64 (wrap64 (page - 1) * limit)) = ((page - 1) * limit).toNat := by
  have h0 : 0 ≤ page - 1 := by omega
  have hle : page - 1 ≤ (page - 1) * limit := by nlinarith
  have h1 : wrap64 (page - 1) = page - 1 := wrap64_of_range _ (by omega) (by omega)
  have hnn : 0 ≤ (page - 1) * limit := Int.mul_nonneg h0 (by omega)
  have h2 : wrap64 ((page - 1) * limit) = (page - 1) * limit :=
    wrap64_of_range _ (by omega) hprod
  rw [h1, h2]
  unfold offsetRows
  split
  · rfl
  · have : (page - 1) * limit = 0 := by omega
    simp [this]

/-- C4 (amended): for every positive page and positive limit whose offset
`(page-1)*limit` fits Go's `int` (is below 2^63), the list of the data access layer
on a reachable table is the window of the rows that are not soft-deleted, in storage
order, that starts at that offset and has at most `limit` rows.  With three such
rows, page 1 of size 2 has two rows, page 2 of size 2 has the remaining one, and the
two pages, one after the other, are exactly the three rows. -/
theorem C4_list_window (db : DB) (page limit : Int) (hf : db.fault = none)
    (hp : 0 < page) (hl : 0 < limit) (hprod : (page - 1) * limit < 2 ^ 63) :
    (EmployeeDao.GetEmployees db page limit).1
      = .ok (((visible db.rows).drop ((page - 1) * limit).toNat).take limit.toNat) ∧
    ((visible db.rows).length = 3 →
      ∃ p1 p2, (EmployeeDao.GetEmployees db 1 2).1 = .ok p1 ∧
        (EmployeeDao.GetEmployees db 2 2).1 = .ok p2 ∧
        p1.length = 2 ∧ p2.length = 1 ∧ p1 ++ p2 = visible db.rows) := by
  refine ⟨?_, ?_⟩
  · rw [GetEmployees_eq db page limit hf, offset_no_overflow page limit hp hl hprod]
    simp [limitRows, Int.le_of_lt hl]
  · intro h3
    refine ⟨(visible db.rows).take 2, (visible db.rows).drop 2, ?_, ?_, ?_, ?_, ?_⟩
    · have h0 : offsetRows (wrap64 (wrap64 (1 - 1) * 2)) = 0 := by decide
      rw [GetEmployees_eq db 1 2 hf, h0]
      simp [limitRows]
    · have h2 : offsetRows (wrap64 (wrap64 (2 - 1) * 2)) = 2 := by decide
      rw [GetEmployees_eq db 2 2 hf, h2]
      simp only [limitRows]
      have hlen : ((visible db.rows).drop 2).length ≤ 2 := by simp [h3]
      simp [List.take_of_length_le hlen]
    · simp [h3]
    · simp [h3]
    · exact List.take_append_drop 2 _

/-- C4 at a concrete table of three rows, pages 1 and 2 of size 2. -/
theorem C4_list_window_witness :
    (EmployeeDao.GetEmployees
      { emptyDB with rows := [{ johnDoe with ID := 1 }, { johnDoe with ID := 2 },
                              { johnDoe with ID := 3 }] } 2 2).1
      = .ok ((([{ johnDoe with ID := 1 }, { johnDoe with ID := 2 },
                { johnDoe with ID := 3 }] : List Employee).drop 2).take 2) :=
  (C4_list_window
    { emptyDB with rows := [{ johnDoe with ID := 1 }, { johnDoe with ID := 2 },
                            { johnDoe with ID := 3 }] } 2 2 rfl (by decide) (by decide)
    (by decide)).1

/-- C4 (counterexample): page 2^32 + 1 with limit 2^32 are positive Go ints, the table
holds one row, and the window that starts at `(page-1)*limit = 2^64` is empty; the
offset computed in Go's `int` wraps to 0 and the data access layer returns the row. -/
theorem C4_offset_overflow_counterexample :
    (0 < (4294967297 : Int) ∧ (4294967297 : Int) < 2 ^ 63) ∧
    (0 < (4294967296 : Int) ∧ (4294967296 : Int) < 2 ^ 63) ∧
    (EmployeeDao.GetEmployees { emptyDB with rows := [johnDoe] } 4294967297 4294967296).1
      = .ok [johnDoe] ∧
    ((visible [johnDoe]).drop ((4294967297 - 1) * 4294967296 : Int).toNat).take
      (4294967296 : Int).toNat = [] ∧
    (EmployeeDao.GetEmployees { emptyDB with rows := [johnDoe] } 4294967297 4294967296).1
      ≠ .ok (((visible [johnDoe]).drop ((4294967297 - 1) * 4294967296 : Int).toNat).take
          (4294967296 : Int).toNat) := by
  decide

/-- C5: `GET /employees` calls the service with `page` = the value of the query
parameter `page` when `strconv.Atoi` parses it and 1 otherwise, and with `limit` =
the value of `page_size` when it parses and 10 otherwise.  The two defaults apply
independently, a parsed value is passed on as it is (zero and negative values
included, no upper bound), and the response is 200 with the service's list whenever
the service does not fail: 500 only comes from a service error.  An absent parameter
reads as the empty string, which does not parse, like "abc". -/
theorem C5_list_handler_pagination (db : DB) (req : Request) :
    (∃ page limit : Int,
      (∀ v, Atoi (queryGet req.query "page") = .ok v → page = v) ∧
      (∀ e, Atoi (queryGet req.query "page") = .error e → page = 1) ∧
      (∀ v, Atoi (queryGet req.query "page_size") = .ok v → limit = v) ∧
      (∀ e, Atoi (queryGet req.query "page_size") = .error e → limit = 10) ∧
      EmployeeController.FetchEmployees db req =
        (match EmployeeService.GetEmployees db page limit with
         | (.error err, db1) => ({ status := 500, body := some (.error err) }, db1)
         | (.ok es, db1) => ({ status := 200, body := some (.employees es) }, db1)) ∧
      (db.fault = none → (EmployeeController.FetchEmployees db req).1.status = 200)) ∧
    (∀ key, queryGet [] key = "") ∧
    Atoi "" = .error (.NumError "Atoi" "" "invalid syntax") ∧
    Atoi "abc" = .error (.NumError "Atoi" "abc" "invalid syntax") ∧
    Atoi "2.5" = .error (.NumError "Atoi" "2.5" "invalid syntax") ∧
    Atoi "0" = .ok 0 ∧ Atoi "-3" = .ok (-3) ∧
    Atoi "9223372036854775807" = .ok 9223372036854775807 := by
  refine ⟨?_, fun _ => rfl, by decide, by decide, by decide, by decide, by decide,
    by decide⟩
  have render : ∀ page limit : Int,
      (match EmployeeService.GetEmployees db page limit with
       | (.error err, db1) => (JSON 500 (.error err), db1)
       | (.ok es, db1) => (JSON 200 (.employees es), db1)) =
      (match EmployeeService.GetEmployees db page limit with
       | (.error err, db1) => ({ status := 500, body := some (.error err) }, db1)
       | (.ok es, db1) => ({ status := 200, body := some (.employees es) }, db1)) := by
    intro page limit
    rcases h : EmployeeService.GetEmployees db page limit with ⟨r, db1⟩
    cases r <;> simp [JSON, bodyAllowedForStatus]
  have ok200 : ∀ page limit : Int, db.fault = none →
      (match EmployeeService.GetEmployees db page limit with
       | (.error err, db1) => ((JSON 500 (.error err), db1) : Response × DB)
       | (.ok es, db1) => (JSON 200 (.employees es), db1)).1.status = 200 := by
    intro page limit hf
    simp only [EmployeeService.GetEmployees]
    rw [GetEmployees_eq db page limit hf]
    simp [JSON, bodyAllowedForStatus]
  unfold EmployeeController.FetchEmployees
  cases hp : Atoi (queryGet req.query "page") with
  | error e1 =>
    cases hl : Atoi (queryGet req.query "page_size") with
    | error e2 =>
      exact ⟨1, 10, by simp, by simp, by simp, by simp, render 1 10, ok200 1 10⟩
    | ok l =>
      exact ⟨1, l, by simp, by simp, by simp, by simp, render 1 l, ok200 1 l⟩
  | ok p =>
    cases hl : Atoi (queryGet req.query "page_size") with
    | error e2 =>
      exact ⟨p, 10, by simp, by simp, by simp, by simp, render p 10, ok200 p 10⟩
    | ok l =>
      exact ⟨p, l, by simp, by simp, by simp, by simp, render p l, ok200 p l⟩

/-- C5 at concrete requests on the table of employee 209: no parameters, and
`page=x&page_size=-1`, both answer 200 with the row; `page=2&page_size=1` answers
200 with the empty list. -/
theorem C5_list_handler_pagination_witness :
    (EmployeeController.FetchEmployees { emptyDB with rows := [johnDoe] }
      { id := "", query := [], body := .error (.Bind "EOF") }).1
        = { status := 200, body := some (.employees [johnDoe]) } ∧
    (EmployeeController.FetchEmployees { emptyDB with rows := [johnDoe] }
      { id := "", query := [("page", "x"), ("page_size", "-1")],
        body := .error (.Bind "EOF") }).1
        = { status := 200, body := some (.employees [johnDoe]) } ∧
    (EmployeeController.FetchEmployees { emptyDB with rows := [johnDoe] }
      { id := "", query := [("page", "2"), ("page_size", "1")],
        body := .error (.Bind "EOF") }).1
        = { status := 200, body := some (.employees []) } ∧
    queryGet [] "page" = "" :=
  ⟨by decide, by decide, by decide,
   (C5_list_handler_pagination emptyDB (mkRequest "" (.error (.Bind "EOF")))).2.1 "page"⟩

/-! ## Delete -/

theorem matchesLive_iff (id : Int) (r : Employee) :
    matchesLive id r = true ↔ ((r.ID : Int) = id ∧ r.DeletedAt = none) := by
  simp [matchesLive, Option.isNone_iff_eq_none]

theorem softDeleteRow_eq (now : Time) (id : Int) (r : Employee) :
    softDeleteRow now id r =
      if (r.ID : Int) = id ∧ r.DeletedAt = none then { r with DeletedAt := some now }
      else r := by
  unfold softDeleteRow
  by_cases h : (r.ID : Int) = id ∧ r.DeletedAt = none
  · rw [if_pos ((matchesLive_iff id r).mpr h), if_pos h]
  · have h1 : ¬ (matchesLive id r = true) := fun hm => h ((matchesLive_iff id r).mp hm)
    rw [if_neg h1, if_neg h]

theorem softDeleteRow_not_live (now : Time) (id : Int) (r : Employee) :
    matchesLive id (softDeleteRow now id r) = false := by
  unfold softDeleteRow
  by_cases h : matchesLive id r = true
  · rw [if_pos h]
    simp [matchesLive]
  · rw [if_neg h]
    simpa using h

theorem softDeleteRow_of_not_live (now : Time) (id : Int) (r : Employee)
    (h : matchesLive id r = false) : softDeleteRow now id r = r := by
  simp [softDeleteRow, h]

/-- The data access delete on a reachable table: no error, one `UPDATE` logged, and
each row with that id that was not soft-deleted now carries the timestamp. -/
theorem DeleteEmployee_eq (db : DB) (now : Time) (id : Int) (hf : db.fault = none) :
    EmployeeDao.DeleteEmployee db now id =
      (none, { db.exec .update with rows := db.rows.map (softDeleteRow now id) }) := by
  simp [EmployeeDao.DeleteEmployee, gormDelete, hf]

theorem map_softDeleteRow_of_none_live (now : Time) (id : Int) (rows : List Employee)
    (h : ∀ r ∈ rows, ¬ ((r.ID : Int) = id ∧ r.DeletedAt = none)) :
    rows.map (softDeleteRow now id) = rows := by
  induction rows with
  | nil => rfl
  | cons x xs ih =>
    have hx : matchesLive id x = false := by
      have := h x (List.mem_cons_self x xs)
      cases hm : matchesLive id x with
      | false => rfl
      | true => exact absurd ((matchesLive_iff id x).mp hm) this
    rw [List.map_cons, softDeleteRow_of_not_live now id x hx,
      ih (fun r hr => h r (List.mem_cons_of_mem x hr))]

theorem none_live_after_softDelete (now : Time) (id : Int) (rows : List Employee) :
    ∀ r ∈ rows.map (softDeleteRow now id), ¬ ((r.ID : Int) = id ∧ r.DeletedAt = none) := by
  intro r hr
  rcases List.mem_map.mp hr with ⟨x, _, rfl⟩
  intro h
  have := softDeleteRow_not_live now id x
  rw [(matchesLive_iff id _).mpr h] at this
  exact Bool.noConfusion this

/-- Every page of the list is made of rows that are not soft-deleted. -/
theorem GetEmployees_mem (db : DB) (page limit : Int) (es : List Employee)
    (h : (EmployeeDao.GetEmployees db page limit).1 = .ok es) :
    ∀ e ∈ es, e ∈ db.rows ∧ e.DeletedAt = none := by
  cases hf : db.fault with
  | some msg => simp [EmployeeDao.GetEmployees, gormFind, hf] at h
  | none =>
    rw [GetEmployees_eq db page limit hf] at h
    simp only [Except.ok.injEq] at h
    subst h
    intro e he
    have h1 : e ∈ (visible db.rows).drop
        (offsetRows (wrap64 (wrap64 (page - 1) * limit))) := by
      unfold limitRows at he
      split at he
      · exact List.mem_of_mem_take he
      · exact he
    have h2 : e ∈ visible db.rows := List.mem_of_mem_drop h1
    simpa [visible, Option.isNone_iff_eq_none] using h2

/-- The update on a reachable table that holds no row with that id that is not
soft-deleted: past the guards, one `SELECT` and the not-found signal. -/
theorem UpdateEmployee_not_found (db : DB) (now : Time) (id : Int) (m : Employee)
    (hf : db.fault = none) (h0 : id ≠ 0) (hm : id = int64OfUint m.ID)
    (hno : ∀ r ∈ db.rows, ¬ ((r.ID : Int) = id ∧ r.DeletedAt = none)) :
    EmployeeDao.UpdateEmployee db now id m = (.error .ErrNotExists, db.exec .select) := by
  have hfind := (find?_matchesLive_eq_none db.rows id).mpr hno
  unfold EmployeeDao.UpdateEmployee
  rw [if_neg h0, if_neg (not_not.mpr hm)]
  simp [gormFirst, hf, hfind, errorsIs]

theorem validIds_iff (rows : List Employee) :
    validIds rows = true ↔ ∀ r ∈ rows, 0 < r.ID ∧ r.ID < 2 ^ 63 := by
  simp [validIds, List.all_eq_true]

/-- The fetch handler on a parsed id, by the outcome of the data access read. -/
theorem FetchEmployee_of_parsed (db : DB) (req : Request) (id : Int)
    (hp : ParseInt req.id = .ok id) :
    (EmployeeController.FetchEmployee db req).1 =
      (match db.fault with
       | some msg => { status := 500, body := some (.error (.Storage msg)) }
       | none =>
         match db.rows.find? (matchesLive id) with
         | none => { status := 404, body := some (.error .ErrNotExists) }
         | some r => { status := 200, body := some (.employee r) }) := by
  simp only [EmployeeController.FetchEmployee, EmployeeService.GetEmployee, hp]
  rw [GetEmployee_eq]
  cases hf : db.fault with
  | some msg => simp [JSON, bodyAllowedForStatus, errorsIs]
  | none =>
    cases hr : db.rows.find? (matchesLive id) with
    | none => simp [JSON, bodyAllowedForStatus, errorsIs]
    | some r => simp [JSON, bodyAllowedForStatus]

/-- C6: on a reachable table whose identifiers are positive and below 2^63, for every
id of a row that is not soft-deleted, Delete(id) succeeds and leaves every row in place: the rows with that
id now carry the deletion timestamp, every other row is unchanged.  Afterwards the
row is invisible: GetByID(id) returns the not-found signal (status 404 at the
handler), no page of List contains a row with that id, and Update(id, payload with
that id) returns the not-found signal. -/
theorem C6_soft_delete_hides_row (db : DB) (now : Time) (id : Int)
    (hf : db.fault = none) (hvalid : validIds db.rows = true)
    (hex : ∃ r ∈ db.rows, (r.ID : Int) = id ∧ r.DeletedAt = none) :
    (EmployeeDao.DeleteEmployee db now id).1 = none ∧
    (EmployeeDao.DeleteEmployee db now id).2.rows =
      db.rows.map (fun r =>
        if (r.ID : Int) = id ∧ r.DeletedAt = none then { r with DeletedAt := some now }
        else r) ∧
    (EmployeeDao.DeleteEmployee db now id).2.rows.length = db.rows.length ∧
    (∃ r ∈ (EmployeeDao.DeleteEmployee db now id).2.rows,
      (r.ID : Int) = id ∧ r.DeletedAt = some now) ∧
    (EmployeeDao.GetEmployee (EmployeeDao.DeleteEmployee db now id).2 id).1
      = .error .ErrNotExists ∧
    (∀ req, ParseInt req.id = .ok id →
      (EmployeeController.FetchEmployee (EmployeeDao.DeleteEmployee db now id).2 req).1
        = { status := 404, body := some (.error .ErrNotExists) }) ∧
    (∀ page limit es,
      (EmployeeDao.GetEmployees (EmployeeDao.DeleteEmployee db now id).2 page limit).1
        = .ok es → ∀ e ∈ es, (e.ID : Int) ≠ id) ∧
    (∀ now2 m, (m.ID : Int) = id →
      (EmployeeDao.UpdateEmployee (EmployeeDao.DeleteEmployee db now id).2 now2 id m).1
        = .error .ErrNotExists) := by
  have hbound : 0 < id ∧ id < 2 ^ 63 := by
    obtain ⟨r, hr, hrid, _⟩ := hex
    have hv := (validIds_iff db.rows).mp hvalid r hr
    rw [← hrid]
    exact ⟨by exact_mod_cast hv.1, by exact_mod_cast hv.2⟩
  obtain ⟨hpos, hrange⟩ := hbound
  rw [DeleteEmployee_eq db now id hf]
  have hmap : db.rows.map (softDeleteRow now id) =
      db.rows.map (fun r =>
        if (r.ID : Int) = id ∧ r.DeletedAt = none then { r with DeletedAt := some now }
        else r) := by
    congr 1
    funext r
    exact softDeleteRow_eq now id r
  have hno := none_live_after_softDelete now id db.rows
  have hf2 : ({ db.exec .update with rows := db.rows.map (softDeleteRow now id) } : DB).fault
      = none := hf
  refine ⟨rfl, hmap, by simp, ?_, ?_, ?_, ?_, ?_⟩
  · obtain ⟨r, hr, hrid, hrd⟩ := hex
    refine ⟨softDeleteRow now id r, List.mem_map_of_mem _ hr, ?_⟩
    rw [softDeleteRow_eq, if_pos ⟨hrid, hrd⟩]
    exact ⟨hrid, rfl⟩
  · rw [GetEmployee_eq, hf2]
    simp only
    rw [(find?_matchesLive_eq_none _ id).mpr hno]
  · intro req hp
    rw [FetchEmployee_of_parsed _ req id hp, hf2]
    simp only
    rw [(find?_matchesLive_eq_none _ id).mpr hno]
  · intro page limit es hes e he hid
    have := GetEmployees_mem _ page limit es hes e he
    exact hno e this.1 ⟨hid, this.2⟩
  · intro now2 m hm
    have hlt : m.ID < 2 ^ 63 := by
      have : (m.ID : Int) < 2 ^ 63 := by rw [hm]; exact hrange
      exact_mod_cast this
    rw [UpdateEmployee_not_found _ now2 id m hf2 (by omega)
      (by rw [int64OfUint_of_lt m.ID hlt, hm]) hno]

/-- C6 at the table of employees 209 and 210, deleting 209 at time 9: the row stays
with its timestamp, 210 is untouched, and reading 209 gives the not-found signal. -/
theorem C6_soft_delete_hides_row_witness :
    (EmployeeDao.DeleteEmployee
      { emptyDB with rows := [johnDoe, { johnDoe with ID := 210 }] } 9 209).2.rows
      = [{ johnDoe with DeletedAt := some 9 }, { johnDoe with ID := 210 }] ∧
    (EmployeeDao.GetEmployee (EmployeeDao.DeleteEmployee
      { emptyDB with rows := [johnDoe, { johnDoe with ID := 210 }] } 9 209).2 209).1
      = .error .ErrNotExists :=
  ⟨by decide,
   (C6_soft_delete_hides_row { emptyDB with rows := [johnDoe, { johnDoe with ID := 210 }] }
      9 209 rfl (by decide) ⟨johnDoe, by decide, by decide, rfl⟩).2.2.2.2.1⟩

/-- The delete handler on a parsed id and a reachable table: 204 without a body. -/
theorem DeleteEmployee_handler_eq (db : DB) (now : Time) (req : Request) (id : Int)
    (hp : ParseInt req.id = .ok id) (hf : db.fault = none) :
    EmployeeController.DeleteEmployee db now req =
      ({ status := 204, body := none },
       { db.exec .update with rows := db.rows.map (softDeleteRow now id) }) := by
  simp only [EmployeeController.DeleteEmployee, EmployeeService.DeleteEmployee, hp]
  rw [DeleteEmployee_eq db now id hf]
  simp [JSON, bodyAllowedForStatus]

/-- C7: on a reachable table, Delete of an id that matches no row that is not
soft-deleted (never created, or already soft-deleted) returns no error, the handler
answers 204 with an empty body, and rows and identifier sequence are unchanged.
Hence, for every id, a second Delete(id) leaves the table as the first left it, and
both calls answer 204. -/
theorem C7_delete_idempotent (db : DB) (now now2 : Time) (req : Request) (id : Int)
    (hp : ParseInt req.id = .ok id) (hf : db.fault = none) :
    ((∀ r ∈ db.rows, ¬ ((r.ID : Int) = id ∧ r.DeletedAt = none)) →
      (EmployeeDao.DeleteEmployee db now id).1 = none ∧
      (EmployeeDao.DeleteEmployee db now id).2.rows = db.rows ∧
      (EmployeeDao.DeleteEmployee db now id).2.seq = db.seq ∧
      (EmployeeController.DeleteEmployee db now req).1 = { status := 204, body := none } ∧
      (EmployeeController.DeleteEmployee db now req).2.rows = db.rows ∧
      (EmployeeController.DeleteEmployee db now req).2.seq = db.seq) ∧
    ((EmployeeController.DeleteEmployee db now req).1 = { status := 204, body := none } ∧
     (EmployeeController.DeleteEmployee
        (EmployeeController.DeleteEmployee db now req).2 now2 req).1
        = { status := 204, body := none } ∧
     (EmployeeController.DeleteEmployee
        (EmployeeController.DeleteEmployee db now req).2 now2 req).2.rows
        = (EmployeeController.DeleteEmployee db now req).2.rows ∧
     (EmployeeController.DeleteEmployee
        (EmployeeController.DeleteEmployee db now req).2 now2 req).2.seq
        = (EmployeeController.DeleteEmployee db now req).2.seq ∧
     (EmployeeDao.DeleteEmployee (EmployeeDao.DeleteEmployee db now id).2 now2 id).1 = none ∧
     (EmployeeDao.DeleteEmployee (EmployeeDao.DeleteEmployee db now id).2 now2 id).2.rows
        = (EmployeeDao.DeleteEmployee db now id).2.rows) := by
  have hf2 : ({ db.exec .update with rows := db.rows.map (softDeleteRow now id) } : DB).fault
      = none := hf
  refine ⟨?_, ?_⟩
  · intro hno
    rw [DeleteEmployee_eq db now id hf, DeleteEmployee_handler_eq db now req id hp hf]
    have := map_softDeleteRow_of_none_live now id db.rows hno
    exact ⟨rfl, this, rfl, rfl, this, rfl⟩
  · rw [DeleteEmployee_handler_eq db now req id hp hf,
      DeleteEmployee_handler_eq _ now2 req id hp hf2,
      DeleteEmployee_eq db now id hf, DeleteEmployee_eq _ now2 id hf2]
    have := map_softDeleteRow_of_none_live now2 id _
      (none_live_after_softDelete now id db.rows)
    exact ⟨rfl, rfl, this, rfl, rfl, this⟩

/-- C7 at the table of employee 209: deleting the unused id 7 changes no row, and
deleting 209 twice (at times 9 and 10) leaves what the first delete left. -/
theorem C7_delete_idempotent_witness :
    (EmployeeController.DeleteEmployee { emptyDB with rows := [johnDoe] } 9
      (mkRequest "7" (.error (.Bind "EOF")))).2.rows = [johnDoe] ∧
    (EmployeeController.DeleteEmployee
      (EmployeeController.DeleteEmployee { emptyDB with rows := [johnDoe] } 9
        (mkRequest "209" (.error (.Bind "EOF")))).2 10
      (mkRequest "209" (.error (.Bind "EOF")))).2.rows
      = [{ johnDoe with DeletedAt := some 9 }] :=
  ⟨((C7_delete_idempotent { emptyDB with rows := [johnDoe] } 9 10
      (mkRequest "7" (.error (.Bind "EOF"))) 7 (by decide) rfl).1 (by decide)).2.2.2.2.1,
   by decide⟩

/-! ## Create -/

theorem le_maxID (rows : List Employee) : ∀ r ∈ rows, r.ID ≤ maxID rows := by
  induction rows with
  | nil => intro r hr; cases hr
  | cons x xs ih =>
    intro r hr
    rcases List.mem_cons.mp hr with h | h
    · subst h; exact Nat.le_max_left _ _
    · exact Nat.le_trans (ih r h) (Nat.le_max_right _ _)

theorem mem_insertRow (r x : Employee) (rows : List Employee) :
    x ∈ insertRow r rows ↔ x = r ∨ x ∈ rows := by
  induction rows with
  | nil => simp [insertRow]
  | cons y ys ih =>
    unfold insertRow
    split
    · simp
    · simp only [List.mem_cons, ih]
      tauto

theorem length_insertRow (r : Employee) (rows : List Employee) :
    (insertRow r rows).length = rows.length + 1 := by
  induction rows with
  | nil => rfl
  | cons y ys ih =>
    unfold insertRow
    split
    · rfl
    · simp [ih]

theorem find?_insertRow (r : Employee) (rows : List Employee)
    (hnew : ∀ x ∈ rows, x.ID ≠ r.ID) (hlive : r.DeletedAt = none) :
    (insertRow r rows).find? (matchesLive (r.ID : Int)) = some r := by
  have hr : matchesLive (r.ID : Int) r = true := (matchesLive_iff _ r).mpr ⟨rfl, hlive⟩
  induction rows with
  | nil => simp [insertRow, hr]
  | cons y ys ih =>
    have hy : matchesLive (r.ID : Int) y = false := by
      cases hm : matchesLive (r.ID : Int) y with
      | false => rfl
      | true =>
        have := ((matchesLive_iff _ y).mp hm).1
        exact absurd (by exact_mod_cast this) (hnew y (List.mem_cons_self y ys))
    unfold insertRow
    split
    · simp [hr]
    · rw [List.find?_cons, hy]
      exact ih (fun x hx => hnew x (List.mem_cons_of_mem y hx))

/-- What a successful insert returns and leaves: the value with its timestamps
filled in and a non-zero identifier below 2^63 that no row of the table had, placed
among the rows; the given identifier when it was not zero. -/
theorem gormCreate_ok (db : DB) (now : Time) (m e : Employee) (db1 : DB)
    (h : gormCreate db now m = (.ok e, db1)) :
    db.fault = none ∧ e = { stampCreate now m with ID := e.ID } ∧
    e.ID ≠ 0 ∧ e.ID < 2 ^ 63 ∧ (m.ID ≠ 0 → e.ID = m.ID) ∧
    (∀ r ∈ db.rows, r.ID ≠ e.ID) ∧
    db1.rows = insertRow e db.rows ∧ db1.fault = none ∧
    db1.log = db.log ++ [Stmt.insert] := by
  unfold gormCreate at h
  cases hf : db.fault with
  | some msg => simp [hf] at h
  | none =>
    simp only [hf] at h
    by_cases h0 : m.ID = 0
    · simp only [h0, if_true] at h
      split at h
      · simp at h
      · rename_i hlt
        simp only [Prod.mk.injEq, Except.ok.injEq] at h
        obtain ⟨he, hdb⟩ := h
        subst he
        subst hdb
        refine ⟨rfl, rfl, by simp, Nat.lt_of_not_le hlt, fun hne => absurd h0 hne, ?_,
          rfl, hf, rfl⟩
        intro r hr
        have := le_maxID db.rows r hr
        simp only
        omega
    · simp only [h0, if_false] at h
      split at h
      · simp at h
      · rename_i hlt
        split at h
        · simp at h
        · rename_i hany
          simp only [Prod.mk.injEq, Except.ok.injEq] at h
          obtain ⟨he, hdb⟩ := h
          subst he
          subst hdb
          refine ⟨rfl, rfl, by simpa [stampCreate] using h0,
            by simpa [stampCreate] using hlt, fun _ => rfl, ?_, rfl, hf, rfl⟩
          intro r hr
          simp only [List.any_eq_true, decide_eq_true_eq, not_exists, not_and] at hany
          simpa [stampCreate] using hany r hr

theorem CreateEmployee_dao_eq (db : DB) (now : Time) (m : Employee) :
    EmployeeDao.CreateEmployee db now m = gormCreate db now m := by
  unfold EmployeeDao.CreateEmployee
  rcases h : gormCreate db now m with ⟨r, db1⟩
  cases r <;> rfl

/-- C8: when the body of `POST /employees` binds to an employee and the insert
succeeds, the handler answers 201 with the created entity; that entity is stored,
has a non-zero identifier and exactly the submitted name, position and salary. -/
theorem C8_create_handler (db : DB) (now : Time) (req : Request) (input e : Employee)
    (db1 : DB) (hb : req.body = .ok input)
    (hins : EmployeeService.CreateEmployee db now input = (.ok e, db1)) :
    EmployeeController.CreateEmployee db now req
      = ({ status := 201, body := some (.employee e) }, db1) ∧
    e.ID ≠ 0 ∧ e.Name = input.Name ∧ e.Position = input.Position ∧
    e.Salary = input.Salary ∧ e ∈ db1.rows := by
  have hg : gormCreate db now input = (.ok e, db1) := by
    rw [← CreateEmployee_dao_eq]; exact hins
  obtain ⟨_, he, hid, _, _, _, hrows, _, _⟩ := gormCreate_ok db now input e db1 hg
  refine ⟨?_, hid, ?_, ?_, ?_, ?_⟩
  · simp [EmployeeController.CreateEmployee, hb, hins, JSON, bodyAllowedForStatus]
  · rw [he]; rfl
  · rw [he]; rfl
  · rw [he]; rfl
  · rw [hrows]; exact (mem_insertRow e e db.rows).mpr (Or.inl rfl)

/-- C8 at the request of the controller test (id 209, John Doe, Software Developer,
268999.90) on an empty table at time 5. -/
theorem C8_create_handler_witness :
    EmployeeController.CreateEmployee emptyDB 5 (mkRequest "" (.ok johnDoe))
      = ({ status := 201, body := some (.employee (stampCreate 5 johnDoe)) },
         { rows := [stampCreate 5 johnDoe], seq := 209, fault := none,
           log := [Stmt.insert] }) ∧
    (stampCreate 5 johnDoe).ID = 209 ∧ (stampCreate 5 johnDoe).Name = "John Doe" :=
  ⟨(C8_create_handler emptyDB 5 (mkRequest "" (.ok johnDoe)) johnDoe
      (stampCreate 5 johnDoe)
      { rows := [stampCreate 5 johnDoe], seq := 209, fault := none, log := [Stmt.insert] }
      rfl (by decide)).1,
   rfl, rfl⟩

/-- C9 (amended): create followed by fetch is a round trip for payloads without a
deletion timestamp.  When Create of such a payload succeeds and returns E, fetching
E's identifier right afterwards answers 200 with E itself, so identifier, name,
position and salary are E's. -/
theorem C9_create_then_fetch (db : DB) (now : Time) (m e : Employee) (db1 : DB)
    (req : Request) (hlive : m.DeletedAt = none)
    (hc : EmployeeDao.CreateEmployee db now m = (.ok e, db1))
    (hp : ParseInt req.id = .ok (e.ID : Int)) :
    (EmployeeController.FetchEmployee db1 req).1
      = { status := 200, body := some (.employee e) } ∧
    (EmployeeDao.GetEmployee db1 (e.ID : Int)).1 = .ok e := by
  have hg : gormCreate db now m = (.ok e, db1) := by
    rw [← CreateEmployee_dao_eq]; exact hc
  obtain ⟨_, he, _, _, _, hnew, hrows, hf1, _⟩ := gormCreate_ok db now m e db1 hg
  have hel : e.DeletedAt = none := by rw [he]; exact hlive
  have hfind : db1.rows.find? (matchesLive (e.ID : Int)) = some e := by
    rw [hrows]; exact find?_insertRow e db.rows hnew hel
  refine ⟨?_, ?_⟩
  · rw [FetchEmployee_of_parsed db1 req _ hp, hf1]
    simp only
    rw [hfind]
  · rw [GetEmployee_eq, hf1]
    simp only
    rw [hfind]

/-- C9 at the request of the controller test: employee 209 created on an empty table
is fetched back by "209". -/
theorem C9_create_then_fetch_witness :
    (EmployeeController.FetchEmployee (EmployeeDao.CreateEmployee emptyDB 5 johnDoe).2
      (mkRequest "209" (.error (.Bind "EOF")))).1
      = { status := 200, body := some (.employee (stampCreate 5 johnDoe)) } :=
  (C9_create_then_fetch emptyDB 5 johnDoe (stampCreate 5 johnDoe)
    (EmployeeDao.CreateEmployee emptyDB 5 johnDoe).2
    (mkRequest "209" (.error (.Bind "EOF"))) rfl (by decide) (by decide)).1

/-- C9 (counterexample): a payload that carries a deletion timestamp.  Create on an
empty table succeeds and returns the entity with identifier 1; the row is stored
soft-deleted, and fetching "1" right afterwards answers 404. -/
theorem C9_deleted_payload_counterexample :
    (EmployeeDao.CreateEmployee emptyDB 5
      { johnDoe with ID := 0, DeletedAt := some 3 }).1
      = .ok { johnDoe with ID := 1, CreatedAt := 5, UpdatedAt := 5, DeletedAt := some 3 } ∧
    (EmployeeController.FetchEmployee
      (EmployeeDao.CreateEmployee emptyDB 5
        { johnDoe with ID := 0, DeletedAt := some 3 }).2
      (mkRequest "1" (.error (.Bind "EOF")))).1
      = { status := 404, body := some (.error .ErrNotExists) } := by
  decide

/-! ## Update: the write -/

theorem saveRow_eq (m r : Employee) :
    saveRow m r = if ((r.ID : Int) = (m.ID : Int) ∧ r.DeletedAt = none) then m else r := by
  unfold saveRow
  by_cases h : (r.ID : Int) = (m.ID : Int) ∧ r.DeletedAt = none
  · rw [if_pos ((matchesLive_iff _ r).mpr h), if_pos h]
  · have h1 : ¬ (matchesLive (m.ID : Int) r = true) :=
      fun hm => h ((matchesLive_iff _ r).mp hm)
    rw [if_neg h1, if_neg h]

/-- The update on a reachable table that holds a row with that id that is not
soft-deleted: a `SELECT`, then the `UPDATE` of `Save`, which writes the payload with
the new update timestamp over the rows with that id that are not soft-deleted. -/
theorem UpdateEmployee_found (db : DB) (now : Time) (id : Int) (m : Employee)
    (hf : db.fault = none) (h0 : id ≠ 0) (hrange : id < 2 ^ 63) (hm : (m.ID : Int) = id)
    (hex : ∃ r ∈ db.rows, (r.ID : Int) = id ∧ r.DeletedAt = none) :
    EmployeeDao.UpdateEmployee db now id m =
      (.ok { m with UpdatedAt := now },
       { (db.exec .select).exec .update with
           rows := db.rows.map (saveRow { m with UpdatedAt := now }) }) := by
  have hlt : m.ID < 2 ^ 63 := by
    have : (m.ID : Int) < 2 ^ 63 := by rw [hm]; exact hrange
    exact_mod_cast this
  have hm0 : m.ID ≠ 0 := by
    intro h
    apply h0
    rw [← hm, h]
    rfl
  have hconv : id = int64OfUint m.ID := by rw [int64OfUint_of_lt m.ID hlt, hm]
  have hany : db.rows.any (matchesLive (m.ID : Int)) = true := by
    obtain ⟨r, hr, hrid, hrd⟩ := hex
    rw [List.any_eq_true]
    exact ⟨r, hr, (matchesLive_iff _ r).mpr ⟨by rw [hm]; exact hrid, hrd⟩⟩
  have hfind : ∃ r, db.rows.find? (matchesLive id) = some r := by
    cases hr : db.rows.find? (matchesLive id) with
    | some r => exact ⟨r, rfl⟩
    | none =>
      obtain ⟨r, hr1, hr2⟩ := hex
      exact absurd hr2 ((find?_matchesLive_eq_none db.rows id).mp hr r hr1)
  obtain ⟨r0, hr0⟩ := hfind
  unfold EmployeeDao.UpdateEmployee
  rw [if_neg h0, if_neg (not_not.mpr hconv)]
  have hlt2 : ¬ (9223372036854775808 ≤ m.ID) := Nat.not_le.mpr hlt
  simp [gormFirst, hf, hr0, gormSave, hm0, DB.exec, hlt2, hany]

/-- C10: on a reachable table, for every non-zero `int64` id and every payload whose
identifier equals id.  If a row with that id that is not soft-deleted exists, Update
succeeds (204 at the handler); afterwards the table is the old one with that row
rewritten in place: its name, position and salary are the payload's, its identifier
is the same, the number of rows is the same, and every other row is unchanged.  If
no such row exists, Update returns the not-found signal (404 at the handler) and rows
and identifier sequence are unchanged. -/
theorem C10_update_full_replace (db : DB) (now : Time) (id : Int) (m : Employee)
    (hf : db.fault = none) (h0 : id ≠ 0) (hrange : id < 2 ^ 63)
    (hm : (m.ID : Int) = id) :
    ((∃ r ∈ db.rows, (r.ID : Int) = id ∧ r.DeletedAt = none) →
      (∃ e, (EmployeeDao.UpdateEmployee db now id m).1 = .ok e) ∧
      (∃ upd : Employee → Employee,
        (EmployeeDao.UpdateEmployee db now id m).2.rows = db.rows.map upd ∧
        (∀ r, ((r.ID : Int) = id ∧ r.DeletedAt = none) →
          (upd r).ID = r.ID ∧ (upd r).Name = m.Name ∧ (upd r).Position = m.Position ∧
          (upd r).Salary = m.Salary) ∧
        (∀ r, ¬ ((r.ID : Int) = id ∧ r.DeletedAt = none) → upd r = r)) ∧
      (EmployeeDao.UpdateEmployee db now id m).2.rows.length = db.rows.length ∧
      (∀ req, req.body = .ok m → ParseInt req.id = .ok id →
        (EmployeeController.UpdateEmployee db now req).1
          = { status := 204, body := none })) ∧
    ((∀ r ∈ db.rows, ¬ ((r.ID : Int) = id ∧ r.DeletedAt = none)) →
      (EmployeeDao.UpdateEmployee db now id m).1 = .error .ErrNotExists ∧
      (EmployeeDao.UpdateEmployee db now id m).2.rows = db.rows ∧
      (EmployeeDao.UpdateEmployee db now id m).2.seq = db.seq ∧
      (∀ req, req.body = .ok m → ParseInt req.id = .ok id →
        (EmployeeController.UpdateEmployee db now req).1
          = { status := 404, body := some (.error .ErrNotExists) })) := by
  have hlt : m.ID < 2 ^ 63 := by
    have : (m.ID : Int) < 2 ^ 63 := by rw [hm]; exact hrange
    exact_mod_cast this
  refine ⟨?_, ?_⟩
  · intro hex
    have hu := UpdateEmployee_found db now id m hf h0 hrange hm hex
    refine ⟨⟨_, by rw [hu]⟩, ⟨saveRow { m with UpdatedAt := now }, by rw [hu], ?_, ?_⟩,
      by rw [hu]; simp, ?_⟩
    · intro r hr
      have hr1 : (r.ID : Int) = (m.ID : Int) ∧ r.DeletedAt = none := ⟨by rw [hm]; exact hr.1, hr.2⟩
      rw [saveRow_eq, if_pos hr1]
      exact ⟨by exact_mod_cast hr1.1.symm, rfl, rfl, rfl⟩
    · intro r hr
      have hr1 : ¬ ((r.ID : Int) = (m.ID : Int) ∧ r.DeletedAt = none) := by
        rw [hm]; exact hr
      rw [saveRow_eq, if_neg hr1]
    · intro req hb hp
      simp [EmployeeController.UpdateEmployee, EmployeeService.UpdateEmployee, hb, hp, hu,
        JSON, bodyAllowedForStatus]
  · intro hno
    have hu := UpdateEmployee_not_found db now id m hf h0
      (by rw [int64OfUint_of_lt m.ID hlt, hm]) hno
    refine ⟨by rw [hu], by rw [hu]; rfl, by rw [hu]; rfl, ?_⟩
    intro req hb hp
    simp [EmployeeController.UpdateEmployee, EmployeeService.UpdateEmployee, hb, hp, hu,
      JSON, bodyAllowedForStatus, errorsIs]

/-- C10 at the table of employees 209 and 210: updating 209 at time 9 with an empty
name and position and a zero salary rewrites that row only; updating the unused id 7
gives the not-found signal. -/
theorem C10_update_full_replace_witness :
    (EmployeeDao.UpdateEmployee
      { emptyDB with rows := [johnDoe, { johnDoe with ID := 210 }] } 9 209
      { johnDoe with Name := "", Position := "", Salary := { bits := 0 } }).2.rows
      = [{ johnDoe with Name := "", Position := "", Salary := { bits := 0 },
                        UpdatedAt := 9 },
         { johnDoe with ID := 210 }] ∧
    (EmployeeDao.UpdateEmployee
      { emptyDB with rows := [johnDoe, { johnDoe with ID := 210 }] } 9 7
      { johnDoe with ID := 7 }).1 = .error .ErrNotExists :=
  ⟨by decide,
   ((C10_update_full_replace
      { emptyDB with rows := [johnDoe, { johnDoe with ID := 210 }] } 9 7
      { johnDoe with ID := 7 } rfl (by decide) (by decide) rfl).2 (by decide)).1⟩

/-! ## identifiers held by the table -/

theorem validIds_insertRow (r : Employee) (rows : List Employee)
    (hr : 0 < r.ID ∧ r.ID < 2 ^ 63) (h : validIds rows = true) :
    validIds (insertRow r rows) = true := by
  rw [validIds_iff] at h ⊢
  intro x hx
  rcases (mem_insertRow r x rows).mp hx with hx | hx
  · subst hx; exact hr
  · exact h x hx

theorem validIds_map (f : Employee → Employee) (rows : List Employee)
    (hf : ∀ r, (0 < r.ID ∧ r.ID < 2 ^ 63) → (0 < (f r).ID ∧ (f r).ID < 2 ^ 63))
    (h : validIds rows = true) : validIds (rows.map f) = true := by
  rw [validIds_iff] at h ⊢
  intro x hx
  rcases List.mem_map.mp hx with ⟨r, hr, rfl⟩
  exact hf r (h r hr)

/-- An insert keeps the identifiers of the table positive and below 2^63. -/
theorem gormCreate_validIds (db : DB) (now : Time) (m : Employee)
    (h : validIds db.rows = true) : validIds (gormCreate db now m).2.rows = true := by
  rcases hres : gormCreate db now m with ⟨res, db1⟩
  cases res with
  | ok e =>
    obtain ⟨_, _, h0, hlt, _, _, hrows, _, _⟩ := gormCreate_ok db now m e db1 hres
    simp only [hrows]
    exact validIds_insertRow e db.rows ⟨Nat.pos_of_ne_zero h0, hlt⟩ h
  | error err =>
    have : db1.rows = db.rows := by
      unfold gormCreate at hres
      cases hf : db.fault with
      | some msg =>
        simp only [hf, Prod.mk.injEq] at hres
        rw [← hres.2]; rfl
      | none =>
        simp only [hf] at hres
        split at hres
        · split at hres
          · simp only [Prod.mk.injEq] at hres
            rw [← hres.2]; rfl
          · simp at hres
        · split at hres
          · simp only [Prod.mk.injEq] at hres
            rw [← hres.2]; rfl
          · split at hres
            · simp only [Prod.mk.injEq] at hres
              rw [← hres.2]; rfl
            · simp at hres
    simp only [this]
    exact h

/-- A soft delete keeps the identifiers of the table. -/
theorem gormDelete_validIds (db : DB) (now : Time) (id : Int)
    (h : validIds db.rows = true) : validIds (gormDelete db now id).2.rows = true := by
  unfold gormDelete
  cases hf : db.fault with
  | some msg => exact h
  | none =>
    simp only
    apply validIds_map _ _ _ h
    intro r hr
    rw [softDeleteRow_eq]
    split <;> exact hr

/-- `Save` keeps the identifiers of the table positive and below 2^63. -/
theorem gormSave_validIds (db : DB) (now : Time) (m : Employee)
    (h : validIds db.rows = true) : validIds (gormSave db now m).2.rows = true := by
  unfold gormSave
  split
  · exact gormCreate_validIds db now m h
  · rename_i h0
    cases hf : db.fault with
    | some msg => exact h
    | none =>
      simp only
      split
      · exact h
      · rename_i hlt
        have hm : 0 < m.ID ∧ m.ID < 2 ^ 63 := ⟨Nat.pos_of_ne_zero h0, Nat.lt_of_not_le hlt⟩
        split
        · simp only
          apply validIds_map _ _ _ h
          intro r hr
          rw [saveRow_eq]
          split
          · exact hm
          · exact hr
        · split
          · simp only
            apply validIds_map _ _ _ h
            intro r hr
            unfold upsertRow
            split
            · exact hm
            · exact hr
          · simp only
            exact validIds_insertRow _ db.rows hm h

/-- Every write of the data access layer keeps the identifiers of the table positive
and below 2^63; the empty table has the property. -/
theorem dao_validIds (db : DB) (now : Time) (id : Int) (m : Employee)
    (h : validIds db.rows = true) :
    validIds emptyDB.rows = true ∧
    validIds (EmployeeDao.CreateEmployee db now m).2.rows = true ∧
    validIds (EmployeeDao.UpdateEmployee db now id m).2.rows = true ∧
    validIds (EmployeeDao.DeleteEmployee db now id).2.rows = true := by
  refine ⟨rfl, ?_, ?_, ?_⟩
  · rw [CreateEmployee_dao_eq]; exact gormCreate_validIds db now m h
  · unfold EmployeeDao.UpdateEmployee
    split
    · exact h
    · split
      · exact h
      · rcases hfst : gormFirst db id with ⟨res, db1⟩
        have hrows : db1.rows = db.rows := by
          have := congrArg (fun p => p.2.rows) hfst
          unfold gormFirst at this
          cases hf : db.fault with
          | some msg => simp only [hf] at this; exact this.symm
          | none =>
            simp only [hf] at this
            cases hr : db.rows.find? (matchesLive id) with
            | none => simp only [hr] at this; exact this.symm
            | some r => simp only [hr] at this; exact this.symm
        cases res with
        | error err =>
          simp only
          split <;> (simp only [hrows]; exact h)
        | ok r =>
          simp only
          have hs := gormSave_validIds db1 now m (by rw [hrows]; exact h)
          rcases hsv : gormSave db1 now m with ⟨res2, db2⟩
          rw [hsv] at hs
          cases res2 <;> exact hs
  · have hd := gormDelete_validIds db now id h
    unfold EmployeeDao.DeleteEmployee
    rcases hdl : gormDelete db now id with ⟨res, db1⟩
    rw [hdl] at hd
    cases res <;> exact hd

/-! ## Error responses -/

theorem insertRow_of_largest (r : Employee) (rows : List Employee)
    (h : ∀ x ∈ rows, x.ID ≤ r.ID) : insertRow r rows = rows ++ [r] := by
  induction rows with
  | nil => rfl
  | cons y ys ih =>
    have hy : ¬ r.ID < y.ID := Nat.not_lt.mpr (h y (List.mem_cons_self y ys))
    unfold insertRow
    rw [if_neg hy, ih (fun x hx => h x (List.mem_cons_of_mem y hx))]
    rfl

theorem maxID_append_singleton (rows : List Employee) (r : Employee) :
    maxID (rows ++ [r]) = max (maxID rows) r.ID := by
  induction rows with
  | nil => simp [maxID]
  | cons y ys ih =>
    show max y.ID (maxID (ys ++ [r])) = max (max y.ID (maxID ys)) r.ID
    rw [ih]
    omega

/-- An insert of a value without identifier on a reachable table: the value gets the
identifier after the largest in use and its row goes to the end of the table. -/
theorem gormCreate_zero (db : DB) (now : Time) (m : Employee)
    (hf : db.fault = none) (h0 : m.ID = 0)
    (hb : max db.seq (maxID db.rows) + 1 < 2 ^ 63) :
    ∃ db1, gormCreate db now m =
        (.ok { stampCreate now m with ID := max db.seq (maxID db.rows) + 1 }, db1) ∧
      db1.rows = db.rows ++
        [{ stampCreate now m with ID := max db.seq (maxID db.rows) + 1 }] ∧
      max db1.seq (maxID db1.rows) = max db.seq (maxID db.rows) + 1 ∧
      db1.fault = none := by
  have hins : insertRow { stampCreate now m with ID := max db.seq (maxID db.rows) + 1 } db.rows
      = db.rows ++ [{ stampCreate now m with ID := max db.seq (maxID db.rows) + 1 }] := by
    apply insertRow_of_largest
    intro x hx
    have := le_maxID db.rows x hx
    simp only
    omega
  refine ⟨{ db.exec .insert with
      rows := db.rows ++ [{ stampCreate now m with ID := max db.seq (maxID db.rows) + 1 }],
      seq := max db.seq (maxID db.rows) + 1 }, ?_, rfl, ?_, hf⟩
  · unfold gormCreate
    simp only [hf, h0, if_true, if_neg (Nat.not_le.mpr hb)]
    rw [hins]
  · simp only
    rw [maxID_append_singleton]
    simp only
    omega

theorem gormCreate_zero_full (db : DB) (now : Time) (m : Employee)
    (hf : db.fault = none) (h0 : m.ID = 0)
    (hb : ¬ (max db.seq (maxID db.rows) + 1 < 2 ^ 63)) :
    gormCreate db now m
      = (.error (.Storage "database or disk is full"), db.exec .insert) := by
  unfold gormCreate
  simp only [hf, h0, if_true, if_pos (Nat.not_lt.mp hb)]

/-- The rows of a batch of values without identifier on a reachable table: they are
appended in order, numbered from the largest identifier in use, provided the
identifiers stay below 2^63. -/
theorem createAll_zero (now : Time) (ms : List Employee) :
    ∀ db : DB, db.fault = none → (∀ m ∈ ms, m.ID = 0) →
      max db.seq (maxID db.rows) + ms.length < 2 ^ 63 →
      ∃ es db2, createAll db now ms = .ok (es, db2) ∧
        db2.rows = db.rows ++ seedRows now (max db.seq (maxID db.rows)) ms ∧
        max db2.seq (maxID db2.rows) = max db.seq (maxID db.rows) + ms.length ∧
        db2.fault = none := by
  induction ms with
  | nil =>
    intro db hf _ _
    exact ⟨[], db, rfl, by simp [seedRows], rfl, hf⟩
  | cons m ms ih =>
    intro db hf hz hb
    have hm0 : m.ID = 0 := hz m (List.mem_cons_self m ms)
    have hlen : (m :: ms).length = ms.length + 1 := rfl
    obtain ⟨db1, hc, hrows1, hmax1, hf1⟩ := gormCreate_zero db now m hf hm0 (by omega)
    obtain ⟨es, db2, he, hrows, hmax, hf2⟩ := ih db1 hf1
      (fun x hx => hz x (List.mem_cons_of_mem m hx)) (by rw [hmax1]; omega)
    refine ⟨({ stampCreate now m with ID := max db.seq (maxID db.rows) + 1 } : Employee) :: es,
      db2, ?_, ?_, ?_, hf2⟩
    · simp only [createAll, hc, he]
    · rw [hrows, hmax1, hrows1]
      simp only [seedRows, List.append_assoc, List.singleton_append]
    · rw [hmax, hmax1]
      omega

/-- A batch of values without identifier fails as a whole when the identifiers would
leave the range of the table. -/
theorem createAll_zero_full (now : Time) (ms : List Employee) :
    ∀ db : DB, db.fault = none → (∀ m ∈ ms, m.ID = 0) →
      ¬ (max db.seq (maxID db.rows) + ms.length < 2 ^ 63) →
      ms ≠ [] → createAll db now ms = .error (.Storage "database or disk is full") := by
  induction ms with
  | nil => intro db _ _ _ hne; exact absurd rfl hne
  | cons m ms ih =>
    intro db hf hz hb _
    have hm0 : m.ID = 0 := hz m (List.mem_cons_self m ms)
    have hlen : (m :: ms).length = ms.length + 1 := rfl
    by_cases hb1 : max db.seq (maxID db.rows) + 1 < 2 ^ 63
    · obtain ⟨db1, hc, _, hmax1, hf1⟩ := gormCreate_zero db now m hf hm0 hb1
      have hne : ms ≠ [] := by
        intro h
        subst h
        exact hb (by simpa using hb1)
      have := ih db1 hf1 (fun x hx => hz x (List.mem_cons_of_mem m hx))
        (by rw [hmax1]; omega) hne
      simp only [createAll, hc, this]
    · simp only [createAll, gormCreate_zero_full db now m hf hm0 hb1]

theorem length_seedRows (now : Time) (ms : List Employee) :
    ∀ base, (seedRows now base ms).length = ms.length := by
  induction ms with
  | nil => intro _; rfl
  | cons m ms ih => intro base; simp [seedRows, ih]

theorem ids_seedRows (now : Time) (ms : List Employee) :
    ∀ base, (seedRows now base ms).map (fun r => r.ID) = List.range' (base + 1) ms.length := by
  induction ms with
  | nil => intro _; rfl
  | cons m ms ih => intro base; simp [seedRows, ih, List.range'_succ]

theorem content_seedRows (now : Time) (ms : List Employee) :
    ∀ base, (seedRows now base ms).map (fun r => (r.Name, r.Position, r.Salary))
      = ms.map (fun r => (r.Name, r.Position, r.Salary)) := by
  induction ms with
  | nil => intro _; rfl
  | cons m ms ih => intro base; simp [seedRows, ih, stampCreate]

theorem countLike_seedRows (now : Time) (c : Employee) (ms : List Employee) (hc : c ∈ ms) :
    ∀ base, 1 ≤ countLike c (seedRows now base ms) := by
  induction ms with
  | nil => cases hc
  | cons m ms ih =>
    intro base
    unfold countLike at *
    rcases List.mem_cons.mp hc with h | h
    · subst h
      simp [seedRows, List.countP_cons, stampCreate]
    · have := ih h (base + 1)
      simp only [seedRows, List.countP_cons]
      omega

theorem countLike_append (c : Employee) (xs ys : List Employee) :
    countLike c (xs ++ ys) = countLike c xs + countLike c ys := by
  simp [countLike, List.countP_append]

theorem pushCatalog_zero : ∀ m ∈ pushCatalog, m.ID = 0 := by decide

theorem pushCatalog_length : pushCatalog.length = 40 := rfl

/-- The seed handler by the outcome of the batch: 201 with the confirmation when the
batch is written, 500 with the error otherwise; one `INSERT` is logged. -/
theorem PushEmployee_eq (db : DB) (now : Time) :
    EmployeeController.PushEmployee db now =
      (match db.fault with
       | some msg => ({ status := 500, body := some (.error (.Storage msg)) },
           db.exec .insert)
       | none =>
         match createAll db now pushCatalog with
         | .error err => ({ status := 500, body := some (.error err) }, db.exec .insert)
         | .ok (_, db2) =>
           ({ status := 201, body := some (.message "Random employees created") },
            { db.exec .insert with rows := db2.rows, seq := db2.seq })) := by
  have hne : pushCatalog.isEmpty = false := rfl
  unfold EmployeeController.PushEmployee EmployeeService.CreateEmployees
    EmployeeDao.CreateEmployees gormCreateBatch
  rw [hne]
  cases hf : db.fault with
  | some msg => simp [JSON, bodyAllowedForStatus]
  | none =>
    cases hc : createAll db now pushCatalog with
    | error err => simp [JSON, bodyAllowedForStatus]
    | ok p => simp [JSON, bodyAllowedForStatus]

/-- On a reachable table with room for forty more identifiers the seed call succeeds
and appends the catalog, numbered from the largest identifier in use. -/
theorem PushEmployee_ok (db : DB) (now : Time) (hf : db.fault = none)
    (hb : max db.seq (maxID db.rows) + 40 < 2 ^ 63) :
    (EmployeeController.PushEmployee db now).1
      = { status := 201, body := some (.message "Random employees created") } ∧
    (EmployeeController.PushEmployee db now).2.rows
      = db.rows ++ seedRows now (max db.seq (maxID db.rows)) pushCatalog ∧
    max (EmployeeController.PushEmployee db now).2.seq
        (maxID (EmployeeController.PushEmployee db now).2.rows)
      = max db.seq (maxID db.rows) + 40 ∧
    (EmployeeController.PushEmployee db now).2.fault = none := by
  obtain ⟨es, db2, hc, hrows, hmax, _⟩ :=
    createAll_zero now pushCatalog db hf pushCatalog_zero (by rw [pushCatalog_length]; exact hb)
  rw [PushEmployee_eq, hf]
  simp only [hc]
  exact ⟨trivial, hrows, by rw [hmax, pushCatalog_length], hf⟩

/-- A seed call that answers 201 found the table reachable and with room for forty
more identifiers. -/
theorem PushEmployee_created (db : DB) (now : Time)
    (h : (EmployeeController.PushEmployee db now).1.status = 201) :
    db.fault = none ∧ max db.seq (maxID db.rows) + 40 < 2 ^ 63 := by
  rw [PushEmployee_eq] at h
  cases hf : db.fault with
  | some msg => simp [hf] at h
  | none =>
    refine ⟨rfl, ?_⟩
    by_contra hb
    have hfull := createAll_zero_full now pushCatalog db hf pushCatalog_zero
      (by rw [pushCatalog_length]; exact hb) (by decide)
    simp [hf, hfull] at h

/-- C12: every seed call that succeeds answers 201 with the confirmation message and
appends exactly the catalog of 40 sample employees, in order, as new rows whose
identifiers follow the largest identifier in use; the rows that were there stay as
they were, and nothing is deduplicated.  Two successful calls in a row from a table
of n rows leave n + 80 rows, and every catalog entry (name, position, salary) is
then present at least twice. -/
theorem C12_seed_appends_catalog (db : DB) (now now2 : Time)
    (h1 : (EmployeeController.PushEmployee db now).1.status = 201) :
    pushCatalog.length = 40 ∧
    (EmployeeController.PushEmployee db now).1
      = { status := 201, body := some (.message "Random employees created") } ∧
    (EmployeeController.PushEmployee db now).2.rows
      = db.rows ++ seedRows now (max db.seq (maxID db.rows)) pushCatalog ∧
    (seedRows now (max db.seq (maxID db.rows)) pushCatalog).map
        (fun r => (r.Name, r.Position, r.Salary))
      = pushCatalog.map (fun r => (r.Name, r.Position, r.Salary)) ∧
    (seedRows now (max db.seq (maxID db.rows)) pushCatalog).map (fun r => r.ID)
      = List.range' (max db.seq (maxID db.rows) + 1) 40 ∧
    (∀ x ∈ db.rows, ∀ r ∈ seedRows now (max db.seq (maxID db.rows)) pushCatalog,
      x.ID < r.ID) ∧
    (EmployeeController.PushEmployee db now).2.rows.length = db.rows.length + 40 ∧
    ((EmployeeController.PushEmployee
        (EmployeeController.PushEmployee db now).2 now2).1.status = 201 →
      (EmployeeController.PushEmployee
        (EmployeeController.PushEmployee db now).2 now2).2.rows
        = db.rows ++ seedRows now (max db.seq (maxID db.rows)) pushCatalog
            ++ seedRows now2 (max db.seq (maxID db.rows) + 40) pushCatalog ∧
      (EmployeeController.PushEmployee
        (EmployeeController.PushEmployee db now).2 now2).2.rows.length
        = db.rows.length + 80 ∧
      ∀ c ∈ pushCatalog, 2 ≤ countLike c
        (EmployeeController.PushEmployee
          (EmployeeController.PushEmployee db now).2 now2).2.rows) := by
  obtain ⟨hf, hb⟩ := PushEmployee_created db now h1
  obtain ⟨hresp, hrows, hmax, hf1⟩ := PushEmployee_ok db now hf hb
  have hids := ids_seedRows now pushCatalog (max db.seq (maxID db.rows))
  rw [pushCatalog_length] at hids
  refine ⟨rfl, hresp, hrows, content_seedRows now pushCatalog _, hids, ?_, ?_, ?_⟩
  · intro x hx r hr
    have hmem : r.ID ∈ (seedRows now (max db.seq (maxID db.rows)) pushCatalog).map
        (fun r => r.ID) := List.mem_map_of_mem _ hr
    rw [hids, List.mem_range'_1] at hmem
    have := le_maxID db.rows x hx
    omega
  · rw [hrows, List.length_append, length_seedRows, pushCatalog_length]
  · intro h2
    obtain ⟨hf2, hb2⟩ := PushEmployee_created _ now2 h2
    obtain ⟨_, hrows2, _, _⟩ := PushEmployee_ok _ now2 hf2 hb2
    have hrows3 : (EmployeeController.PushEmployee
        (EmployeeController.PushEmployee db now).2 now2).2.rows
        = db.rows ++ seedRows now (max db.seq (maxID db.rows)) pushCatalog
            ++ seedRows now2 (max db.seq (maxID db.rows) + 40) pushCatalog := by
      rw [hrows2, hmax, hrows]
    refine ⟨hrows3, ?_, ?_⟩
    · rw [hrows3]
      simp only [List.length_append, length_seedRows, pushCatalog_length]
    · intro c hc
      rw [hrows3, countLike_append, countLike_append]
      have a1 := countLike_seedRows now c pushCatalog hc (max db.seq (maxID db.rows))
      have a2 := countLike_seedRows now2 c pushCatalog hc (max db.seq (maxID db.rows) + 40)
      omega

/-- C12 at the table of employee 209, seeded at time 5: the call answers 201 and
leaves 41 rows, the 40 new ones numbered 210 to 249. -/
theorem C12_seed_appends_catalog_witness :
    (EmployeeController.PushEmployee { emptyDB with rows := [johnDoe] } 5).1.status = 201 ∧
    (EmployeeController.PushEmployee { emptyDB with rows := [johnDoe] } 5).2.rows.length
      = 1 + 40 ∧
    (seedRows 5 209 pushCatalog).map (fun r => r.ID) = List.range' 210 40 :=
  ⟨congrArg Response.status
     (PushEmployee_ok { emptyDB with rows := [johnDoe] } 5 rfl (by decide)).1,
   (C12_seed_appends_catalog { emptyDB with rows := [johnDoe] } 5 6
     (congrArg Response.status
       (PushEmployee_ok { emptyDB with rows := [johnDoe] } 5 rfl (by decide)).1)).2.2.2.2.2.2.1,
   (C12_seed_appends_catalog { emptyDB with rows := [johnDoe] } 5 6
     (congrArg Response.status
       (PushEmployee_ok { emptyDB with rows := [johnDoe] } 5 rfl (by decide)).1)).2.2.2.2.1⟩

theorem createAll_validIds (now : Time) (ms : List Employee) :
    ∀ (db : DB) (es : List Employee) (db2 : DB), validIds db.rows = true →
      createAll db now ms = .ok (es, db2) → validIds db2.rows = true := by
  induction ms with
  | nil =>
    intro db es db2 h hc
    simp only [createAll, Except.ok.injEq, Prod.mk.injEq] at hc
    rw [← hc.2]; exact h
  | cons m ms ih =>
    intro db es db2 h hc
    have hv := gormCreate_validIds db now m h
    rcases hg : gormCreate db now m with ⟨res, db1⟩
    rw [hg] at hv
    cases res with
    | error err => simp [createAll, hg] at hc
    | ok e =>
      cases hrest : createAll db1 now ms with
      | error err => simp [createAll, hg, hrest] at hc
      | ok p =>
        obtain ⟨es1, db3⟩ := p
        simp only [createAll, hg, hrest, Except.ok.injEq, Prod.mk.injEq] at hc
        rw [← hc.2]
        exact ih db1 es1 db3 hv hrest

/-- The batch insert of the data access layer keeps the identifiers of the table
positive and below 2^63. -/
theorem CreateEmployees_validIds (db : DB) (now : Time) (ms : List Employee)
    (h : validIds db.rows = true) :
    validIds (EmployeeDao.CreateEmployees db now ms).2.rows = true := by
  have key : validIds (gormCreateBatch db now ms).2.rows = true := by
    unfold gormCreateBatch
    split
    · exact h
    · cases hf : db.fault with
      | some msg => exact h
      | none =>
        cases hc : createAll db now ms with
        | error err => exact h
        | ok p =>
          obtain ⟨es, db2⟩ := p
          exact createAll_validIds now ms db es db2 h hc
  unfold EmployeeDao.CreateEmployees
  rcases hb : gormCreateBatch db now ms with ⟨res, db1⟩
  rw [hb] at key
  cases res <;> exact key

end EmployeeCrud
